import Mathlib

/-!
Pico: a shallow embedding of `src/pico.c`

The C program is a terminal text viewer.  This file embeds the parts of it
that the specification talks about:

* the row model (`Row`, `editor_row_cx_to_rx`, `editor_update_row`,
  `editor_append_row`),
* the key decoder (`editor_read_key`),
* the cursor and viewport controller (`editor_move_cursor`,
  `editor_process_keypress`, `editor_scroll`),
* the screen renderer (`ab_append`, `editor_draw_rows`,
  `editor_draw_status_bar`).

Conventions of the embedding.

* A C `int` is an `Int`.  Signed overflow is undefined behaviour in C; it is
  modelled, as the 32-bit wrap-around `int32` of the compiled program, at the
  one place where a file that can be loaded reaches it: the size that
  `editor_update_row` hands to `malloc`.  C's `%` truncates towards zero: it
  is `Int.tmod`.
* A C `char` is the `Int` it holds.  `'\t'` is 9, `' '` is 32, `'\x1b'` is 27.
* A `char *` buffer together with its length is a `List Int` of the bytes
  before the terminating NUL.  Reading index `length` yields the NUL (0).
* The global `struct EditorConfig E` is passed explicitly.
-/

namespace Pico

/-! ## Defines -/

/-- The macro `#define PICO_TAB_STOP 8`. -/
def PICO_TAB_STOP : Int := 8

/-- The macro `#define CTRL_KEY(k) ((k) & 0x1f)`: the low five bits of `k`. -/
def CTRL_KEY (k : Int) : Int := Int.ofNat (k.toNat &&& 0x1f)

/-- Enumerator of `enum EditorKey`, which starts at 1000. -/
def ARROW_LEFT : Int := 1000
/-- Enumerator of `enum EditorKey`. -/
def ARROW_RIGHT : Int := 1001
/-- Enumerator of `enum EditorKey`. -/
def ARROW_UP : Int := 1002
/-- Enumerator of `enum EditorKey`. -/
def ARROW_DOWN : Int := 1003
/-- Enumerator of `enum EditorKey`. -/
def DEL_KEY : Int := 1004
/-- Enumerator of `enum EditorKey`. -/
def HOME_KEY : Int := 1005
/-- Enumerator of `enum EditorKey`. -/
def END_KEY : Int := 1006
/-- Enumerator of `enum EditorKey`. -/
def PAGE_UP : Int := 1007
/-- Enumerator of `enum EditorKey`. -/
def PAGE_DOWN : Int := 1008

/-! ## Data -/

/-- The C struct `Row`.  `chars` holds the `size` bytes of the line and
`render` the `rsize` bytes written by `editor_update_row`; the terminating
NUL of either buffer is not part of the list. -/
structure Row where
  size : Int
  rsize : Int
  chars : List Int
  render : List Int
deriving DecidableEq, Repr

/-- The C struct `EditorConfig` without `orig_termios`.  `row` is the array
`E.row`; `filename` is `none` for a NULL pointer. -/
structure EditorConfig where
  cx : Int
  cy : Int
  rx : Int
  rowoff : Int
  coloff : Int
  screenrows : Int
  screencols : Int
  numrows : Int
  row : List Row
  filename : Option (List Int)
  statusmsg : List Int
  statusmsg_time : Int
deriving DecidableEq, Repr

/-- The read `s[j]` of a NUL-terminated buffer `s`.  Index `s.length` reads
the terminator; other indices outside the buffer are undefined in C and read
as 0 here. -/
def charAt (s : List Int) (j : Int) : Int :=
  if 0 ≤ j then s.getD j.toNat 0 else 0

/-- The row a NULL `Row *` stands for in the embedding. -/
def nullRow : Row := { size := 0, rsize := 0, chars := [], render := [] }

/-- The read `row[i]` of the array `E.row`.  An index outside the array is
undefined in C and reads as `nullRow` here. -/
def rowAt (row : List Row) (i : Int) : Row :=
  if 0 ≤ i then row.getD i.toNat nullRow else nullRow

/-! ## Row operations -/

/-- One iteration of the loop of `editor_row_cx_to_rx`:
`if (c == '\t') rx += (PICO_TAB_STOP - 1) - (rx % PICO_TAB_STOP); rx++;`. -/
def cx_to_rx_step (rx : Int) (c : Int) : Int :=
  (if c = 9 then rx + ((PICO_TAB_STOP - 1) - rx.tmod PICO_TAB_STOP) else rx) + 1

/-- The C function `editor_row_cx_to_rx`: the loop
`for (j = 0; j < cx; j++)` runs over `j = 0, ..., cx - 1`. -/
def editor_row_cx_to_rx (row : Row) (cx : Int) : Int :=
  (List.range cx.toNat).foldl
    (fun (rx : Int) (j : Nat) => cx_to_rx_step rx (charAt row.chars (Int.ofNat j))) 0

/-- The first loop of `editor_update_row`: the number of tabs among the first
`size` bytes of `chars`. -/
def count_tabs (row : Row) : Int :=
  (List.range row.size.toNat).foldl
    (fun (tabs : Int) (j : Nat) => if charAt row.chars (Int.ofNat j) = 9 then tabs + 1 else tabs) 0

/-- The value that a 32-bit `int` holds for the mathematical result `x` of an
arithmetic operation: `x` itself inside the range of `int`, and the
two's-complement wrap-around outside it (where C leaves the result
undefined). -/
def int32 (x : Int) : Int :=
  (x + 2147483648) % 4294967296 - 2147483648

/-- The size that `editor_update_row` hands to `malloc` for `render`: the
`int` expression `row->size + tabs * (PICO_TAB_STOP - 1) + 1`, each operation
in 32-bit `int` arithmetic.  A negative value is converted to a `size_t`
larger than any address space, and no byte is allocated. -/
def render_alloc (row : Row) : Int :=
  int32 (int32 (row.size + int32 (count_tabs row * (PICO_TAB_STOP - 1))) + 1)

/-- The inner loop of `editor_update_row`,
`while (idx % PICO_TAB_STOP != 0) row->render[idx++] = ' ';`.
The argument is the list of bytes written so far, whose length is `idx`. -/
def tab_fill (render : List Int) : List Int :=
  if (render.length : Int).tmod PICO_TAB_STOP ≠ 0 then tab_fill (render ++ [32])
  else render
termination_by (8 - render.length % 8) % 8
decreasing_by
  rename_i h
  rw [PICO_TAB_STOP, Int.tmod_eq_emod (Int.ofNat_nonneg _) (by decide)] at h
  simp only [List.length_append, List.length_singleton]
  omega

/-- One iteration of the second loop of `editor_update_row`.  The argument
`render` is the list of bytes written so far (its length is `idx`), so the
write `row->render[idx++] = c` appends `c`. -/
def update_row_step (render : List Int) (c : Int) : List Int :=
  if c = 9 then tab_fill (render ++ [32]) else render ++ [c]

/-- The C function `editor_update_row`: `render` is rebuilt from the first
`size` bytes of `chars` and `rsize` is the final write index `idx`. -/
def editor_update_row (row : Row) : Row :=
  let render := (List.range row.size.toNat).foldl
    (fun (out : List Int) (j : Nat) => update_row_step out (charAt row.chars (Int.ofNat j))) []
  { row with render := render, rsize := (render.length : Int) }

/-- The row that `editor_append_row (s, len)` stores at `E.row[at]`, with `s`
the `len` bytes of the line. -/
def new_row (s : List Int) : Row :=
  editor_update_row { size := (s.length : Int), rsize := 0, chars := s, render := [] }

/-- The C function `editor_append_row`: the new row is stored at index
`E.numrows` of the grown array. -/
def editor_append_row (E : EditorConfig) (s : List Int) : EditorConfig :=
  { E with row := E.row.take E.numrows.toNat ++ [new_row s], numrows := E.numrows + 1 }

/-! ## File i/o -/

/-- The stripping loop of `editor_open`,
`while (linelen > 0 && (line[linelen - 1] == '\n' || line[linelen - 1] == '\r')) linelen--;`:
the line without its trailing LF (10) and CR (13) bytes. -/
def strip_eol (line : List Int) : List Int :=
  (line.reverse.dropWhile (fun c => c == 10 || c == 13)).reverse

/-- The C function `editor_open` for a file that could be opened: `lines` are
the results of the successive `getline` calls. -/
def editor_open (E : EditorConfig) (filename : List Int) (lines : List (List Int)) :
    EditorConfig :=
  lines.foldl (fun E line => editor_append_row E (strip_eol line))
    { E with filename := some filename }

/-! ## Terminal input -/

/-- The outcome of one call `read(STDIN_FILENO, &c, 1)`: one byte was
delivered (return value 1), the bounded wait timed out (return value 0), or
the call failed (return value -1, `eagain` telling whether `errno == EAGAIN`). -/
inductive ReadOutcome where
  | byte (c : Int)
  | timeout
  | error (eagain : Bool)
deriving DecidableEq, Repr

/-- The result of `editor_read_key` on a finite list of read outcomes: a key
value together with the outcomes not consumed, `died` when `die("read")` is
called, `blocked` when the first loop is still waiting after the last outcome
of the list. -/
inductive KeyResult where
  | key (k : Int) (rest : List ReadOutcome)
  | died
  | blocked
deriving DecidableEq, Repr

/-- One lookahead read of `editor_read_key`, as tested by
`if (read(STDIN_FILENO, &seq[i], 1) != 1)`: the byte when one was delivered,
and the outcomes left.  After the last outcome of the list no byte ever
arrives and every read times out. -/
def read_seq : List ReadOutcome → Option Int × List ReadOutcome
  | [] => (none, [])
  | ReadOutcome.byte c :: rest => (some c, rest)
  | _ :: rest => (none, rest)

/-- The branch `if (c == '\x1b') { ... }` of `editor_read_key`: the bytes
`'['` 91, `'O'` 79, `'~'` 126, `'0'` 48 to `'9'` 57 and the letters
`'A'` 65, `'B'` 66, `'C'` 67, `'D'` 68, `'F'` 70, `'H'` 72. -/
def read_escape (input : List ReadOutcome) : Int × List ReadOutcome :=
  match read_seq input with
  | (none, r1) => (27, r1)
  | (some seq0, r1) =>
    match read_seq r1 with
    | (none, r2) => (27, r2)
    | (some seq1, r2) =>
      if seq0 = 91 then
        if 48 ≤ seq1 ∧ seq1 ≤ 57 then
          match read_seq r2 with
          | (none, r3) => (27, r3)
          | (some seq2, r3) =>
            if seq2 = 126 then
              if seq1 = 49 then (HOME_KEY, r3)
              else if seq1 = 51 then (DEL_KEY, r3)
              else if seq1 = 52 then (END_KEY, r3)
              else if seq1 = 53 then (PAGE_UP, r3)
              else if seq1 = 54 then (PAGE_DOWN, r3)
              else if seq1 = 55 then (HOME_KEY, r3)
              else if seq1 = 56 then (END_KEY, r3)
              else (27, r3)
            else (27, r3)
        else
          if seq1 = 65 then (ARROW_UP, r2)
          else if seq1 = 66 then (ARROW_DOWN, r2)
          else if seq1 = 67 then (ARROW_RIGHT, r2)
          else if seq1 = 68 then (ARROW_LEFT, r2)
          else if seq1 = 72 then (HOME_KEY, r2)
          else if seq1 = 70 then (END_KEY, r2)
          else (27, r2)
      else if seq0 = 79 then
        if seq1 = 72 then (HOME_KEY, r2)
        else if seq1 = 70 then (END_KEY, r2)
        else (27, r2)
      else (27, r2)

/-- The C function `editor_read_key`.  The first loop
`while ((nread = read(...)) != 1)` skips timeouts and `EAGAIN` failures and
dies on any other failure. -/
def editor_read_key : List ReadOutcome → KeyResult
  | [] => KeyResult.blocked
  | ReadOutcome.byte c :: rest =>
    if c = 27 then KeyResult.key (read_escape rest).1 (read_escape rest).2
    else KeyResult.key c rest
  | ReadOutcome.timeout :: rest => editor_read_key rest
  | ReadOutcome.error eagain :: rest =>
    if eagain then editor_read_key rest else KeyResult.died

/-! ## Input -/

/-- The pointer expression `(E.cy >= E.numrows) ? NULL : &E.row[E.cy]` of
`editor_move_cursor`, `none` for NULL. -/
def cursor_row (E : EditorConfig) : Option Row :=
  if E.cy ≥ E.numrows then none else some (rowAt E.row E.cy)

/-- The `switch (key)` of `editor_move_cursor`. -/
def move_cursor_switch (key : Int) (E : EditorConfig) : EditorConfig :=
  if key = ARROW_LEFT then
    if E.cx ≠ 0 then { E with cx := E.cx - 1 }
    else if E.cy > 0 then { E with cy := E.cy - 1, cx := (rowAt E.row (E.cy - 1)).size }
    else E
  else if key = ARROW_RIGHT then
    match cursor_row E with
    | some row =>
      if E.cx < row.size then { E with cx := E.cx + 1 }
      else if E.cx = row.size then { E with cy := E.cy + 1, cx := 0 }
      else E
    | none => E
  else if key = ARROW_UP then
    if E.cy ≠ 0 then { E with cy := E.cy - 1 } else E
  else if key = ARROW_DOWN then
    if E.cy < E.numrows then { E with cy := E.cy + 1 } else E
  else E

/-- The C function `editor_move_cursor`: the switch, then the correction of
`cx` against the length `rowlen` of the row now under the cursor. -/
def editor_move_cursor (key : Int) (E : EditorConfig) : EditorConfig :=
  let E1 := move_cursor_switch key E
  let rowlen : Int :=
    match cursor_row E1 with
    | some row => row.size
    | none => 0
  if E1.cx > rowlen then { E1 with cx := rowlen } else E1

/-- The loop `while (times--) editor_move_cursor(key);` for `times >= 0`. -/
def move_cursor_times (key : Int) : Nat → EditorConfig → EditorConfig
  | 0, E => E
  | n + 1, E => move_cursor_times key n (editor_move_cursor key E)

/-- The `switch (c)` of `editor_process_keypress` on the decoded key `c`.
The result is `none` when the process exits (`exit(0)` on Ctrl-Q).  The paging
loop starts from `times = E.screenrows`; a negative count, on which the C loop
overflows, runs no iteration here. -/
def process_key (c : Int) (E : EditorConfig) : Option EditorConfig :=
  if c = CTRL_KEY 113 then none
  else if c = HOME_KEY then some { E with cx := 0 }
  else if c = END_KEY then
    some (if E.cy < E.numrows then { E with cx := (rowAt E.row E.cy).size } else E)
  else if c = PAGE_UP ∨ c = PAGE_DOWN then
    let E1 :=
      if c = PAGE_UP then { E with cy := E.rowoff }
      else
        let E2 := { E with cy := E.rowoff + E.screenrows - 1 }
        if E2.cy > E2.numrows then { E2 with cy := E2.numrows } else E2
    some (move_cursor_times (if c = PAGE_UP then ARROW_UP else ARROW_DOWN)
      E1.screenrows.toNat E1)
  else if c = ARROW_LEFT ∨ c = ARROW_RIGHT ∨ c = ARROW_UP ∨ c = ARROW_DOWN then
    some (editor_move_cursor c E)
  else some E

/-- The result of `editor_process_keypress`. -/
inductive KeypressResult where
  | running (E : EditorConfig) (rest : List ReadOutcome)
  | exited (status : Int)
  | blocked
deriving DecidableEq, Repr

/-- The C function `editor_process_keypress`: a key is read and dispatched.
`die` exits with status 1 and Ctrl-Q with status 0. -/
def editor_process_keypress (input : List ReadOutcome) (E : EditorConfig) :
    KeypressResult :=
  match editor_read_key input with
  | KeyResult.key c rest =>
    match process_key c E with
    | some E1 => KeypressResult.running E1 rest
    | none => KeypressResult.exited 0
  | KeyResult.died => KeypressResult.exited 1
  | KeyResult.blocked => KeypressResult.blocked

/-! ## Output -/

/-- The C function `editor_scroll`. -/
def editor_scroll (E : EditorConfig) : EditorConfig :=
  let E := { E with rx := 0 }
  let E := if E.cy < E.numrows
    then { E with rx := editor_row_cx_to_rx (rowAt E.row E.cy) E.cx } else E
  let E := if E.cy < E.rowoff then { E with rowoff := E.cy } else E
  let E := if E.cy ≥ E.rowoff + E.screenrows
    then { E with rowoff := E.cy - E.screenrows + 1 } else E
  let E := if E.rx < E.coloff then { E with coloff := E.rx } else E
  let E := if E.rx ≥ E.coloff + E.screencols
    then { E with coloff := E.rx - E.screencols + 1 } else E
  E

/-! ## Init -/

/-- The C function `get_window_size`.  `ioctl` is the outcome of the
`TIOCGWINSZ` request: `none` when it returns -1, else the fields `ws_row` and
`ws_col` of the `struct winsize` (both `unsigned short`).  `position` is the
outcome of the fallback, `none` when the `write` fails or
`get_cursor_position` returns -1, else the row and column that it read from
the terminal's cursor position report.  The result is `none` for the return
value -1, else the values stored in `rows` and `cols`. -/
def get_window_size (ioctl : Option (Nat × Nat)) (position : Option (Int × Int)) :
    Option (Int × Int) :=
  match ioctl with
  | none => position
  | some (ws_row, ws_col) =>
    if ws_col = 0 then position else some ((ws_row : Int), (ws_col : Int))

/-- The C function `editor_init` when `get_window_size` succeeds with `rows`
and `cols`. -/
def editor_init (rows cols : Int) : EditorConfig :=
  { cx := 0, cy := 0, rx := 0, rowoff := 0, coloff := 0,
    screenrows := rows - 2, screencols := cols,
    numrows := 0, row := [], filename := none,
    statusmsg := [], statusmsg_time := 0 }

/-- The state in which `main` enters its loop: `editor_init`, then
`editor_open` when a file name was given.  The status message set by `main`
is left out: no modelled function reads it. -/
def startup (rows cols : Int) (file : Option (List Int × List (List Int))) :
    EditorConfig :=
  match file with
  | some (filename, lines) => editor_open (editor_init rows cols) filename lines
  | none => editor_init rows cols

/-- One turn of the loop of `main` on an already decoded key: the
`editor_scroll` at the start of `editor_refresh_screen` (the only part of the
refresh that changes the state), then the key dispatch. -/
def frame (c : Int) (E : EditorConfig) : Option EditorConfig :=
  process_key c (editor_scroll E)

/-- A finite run of the loop of `main` on the decoded keys `keys`; `none` when
the process exits on the way. -/
def run_frames : List Int → EditorConfig → Option EditorConfig
  | [], E => some E
  | c :: cs, E =>
    match frame c E with
    | some E1 => run_frames cs E1
    | none => none

/-! ## Append buffer and formatting -/

/-- The bytes that `memcpy (dst, &buf[start], len)` copies: the `len` bytes of
`buf` from index `start` on.  A negative `len` is undefined in C (it is
converted to a huge `size_t`); no byte is read here in that case. -/
def read_bytes (buf : List Int) (start len : Int) : List Int :=
  (List.range len.toNat).map (fun (j : Nat) => charAt buf (start + Int.ofNat j))

/-- The C function `ab_append (ab, &buf[start], len)` when `realloc` succeeds:
the buffer `ab` grows by the `len` bytes read. -/
def ab_append (ab : List Int) (buf : List Int) (start len : Int) : List Int :=
  ab ++ read_bytes buf start len

/-- The libc call `snprintf (buf, 80, ...)` on a `char buf[80]`, where `text`
is the complete formatted text: at most 79 bytes are stored before the NUL,
and the length of the complete text is returned. -/
def snprintf80 (text : List Int) : List Int × Int :=
  (text.take 79, (text.length : Int))

/-- The values of the C type `int` (32 bits). -/
def IsCInt (x : Int) : Prop := -2147483648 ≤ x ∧ x ≤ 2147483647

instance (x : Int) : Decidable (IsCInt x) := by
  unfold IsCInt
  infer_instance

/-! ## Drawing the rows -/

/-- The text `"Pico editor -- version %s"` formatted with `PICO_VERSION`,
which is `"0.0.1"`. -/
def welcome_text : List Int :=
  [80, 105, 99, 111, 32, 101, 100, 105, 116, 111, 114, 32, 45, 45, 32,
   118, 101, 114, 115, 105, 111, 110, 32, 48, 46, 48, 46, 49]

/-- The loop `while (padding--) ab_append (ab, " ", 1);` for `padding >= 0`. -/
def pad_spaces (ab : List Int) : Nat → List Int
  | 0 => ab
  | n + 1 => pad_spaces (ab_append ab [32] 0 1) n

/-- The welcome branch of `editor_draw_rows`: the banner, cut to the screen
width, behind a `~` (126) and spaces that centre it.  C's `/` truncates
towards zero: it is `Int.tdiv`. -/
def draw_welcome (ab : List Int) (E : EditorConfig) : List Int :=
  let welcome := (snprintf80 welcome_text).1
  let welcomelen := (snprintf80 welcome_text).2
  let welcomelen := if welcomelen > E.screencols then E.screencols else welcomelen
  let padding := (E.screencols - welcomelen).tdiv 2
  let ab1 := if padding ≠ 0 then ab_append ab [126] 0 1 else ab
  let padding1 := if padding ≠ 0 then padding - 1 else padding
  ab_append (pad_spaces ab1 padding1.toNat) welcome 0 welcomelen

/-- The value of `len` that `editor_draw_rows` passes to `ab_append` for the
file row `filerow`: `rsize - coloff`, raised to 0 and cut to `screencols`. -/
def draw_row_len (E : EditorConfig) (filerow : Int) : Int :=
  let len := (rowAt E.row filerow).rsize - E.coloff
  let len := if len < 0 then 0 else len
  if len > E.screencols then E.screencols else len

/-- The body of the loop of `editor_draw_rows` for the screen line `y`: the
text of the line, then `"\x1b[K"` (clear to end of line) and `"\r\n"`. -/
def draw_row (ab : List Int) (E : EditorConfig) (y : Int) : List Int :=
  let filerow := y + E.rowoff
  let ab1 :=
    if filerow ≥ E.numrows then
      if E.numrows = 0 ∧ filerow = E.screenrows.tdiv 3 then draw_welcome ab E
      else if E.numrows = 0 ∨ filerow = E.screenrows then ab_append ab [126] 0 1
      else ab
    else
      ab_append ab (rowAt E.row filerow).render E.coloff (draw_row_len E filerow)
  ab_append (ab_append ab1 [27, 91, 75] 0 3) [13, 10] 0 2

/-- The C function `editor_draw_rows`: the loop
`for (y = 0; y < E.screenrows; y++)`. -/
def editor_draw_rows (ab : List Int) (E : EditorConfig) : List Int :=
  (List.range E.screenrows.toNat).foldl
    (fun (ab : List Int) (y : Nat) => draw_row ab E (Int.ofNat y)) ab

/-! ## Drawing the status bar -/

/-- The cursor invariant of the specification: `0 <= cy <= numrows`,
`0 <= cx <= size of row cy` when `cy < numrows`, and `cx == 0` when
`cy == numrows`. -/
def CursorInv (E : EditorConfig) : Prop :=
  0 ≤ E.cy ∧ E.cy ≤ E.numrows ∧
  (E.cy < E.numrows → 0 ≤ E.cx ∧ E.cx ≤ (rowAt E.row E.cy).size) ∧
  (E.cy = E.numrows → E.cx = 0)

instance (E : EditorConfig) : Decidable (CursorInv E) := by
  unfold CursorInv
  infer_instance

/-- The data-model invariant of the specification: `numrows` is the number of
rows and the `size` of every row is the length of its `chars`. -/
def RowsOk (E : EditorConfig) : Prop :=
  E.numrows = (E.row.length : Int) ∧ ∀ r ∈ E.row, r.size = (r.chars.length : Int)

instance (E : EditorConfig) : Decidable (RowsOk E) := by
  unfold RowsOk
  infer_instance

/-- The cursor is on a row or just past the last one and `cx` is not negative. -/
def CursorWeak (E : EditorConfig) : Prop :=
  0 ≤ E.cy ∧ E.cy ≤ E.numrows ∧ 0 ≤ E.cx

/-- The fields of the state other than `cx` and `cy` agree. -/
def SameExceptCursor (E E1 : EditorConfig) : Prop :=
  E1.rx = E.rx ∧ E1.rowoff = E.rowoff ∧ E1.coloff = E.coloff ∧
  E1.screenrows = E.screenrows ∧ E1.screencols = E.screencols ∧
  E1.numrows = E.numrows ∧ E1.row = E.row ∧ E1.filename = E.filename ∧
  E1.statusmsg = E.statusmsg ∧ E1.statusmsg_time = E.statusmsg_time

/-- The state at the start of a frame: valid cursor, well-formed rows, a
scroll offset that is not negative and at least one screen row. -/
def FrameInv (E : EditorConfig) : Prop :=
  CursorInv E ∧ RowsOk E ∧ 0 ≤ E.rowoff ∧ 1 ≤ E.screenrows

/-! ## Reference tab expansion -/

/-- Reference tab expansion with stop width 8, starting at rendered column
`r`: a non-tab byte is copied, a tab met at column `r` becomes `8 - r % 8`
spaces.  This definition follows the words of the specification, not the C
code. -/
def tab_expand_from : Nat → List Int → List Int
  | _, [] => []
  | r, c :: cs =>
    if c = 9 then List.replicate (8 - r % 8) 32 ++ tab_expand_from (r + (8 - r % 8)) cs
    else c :: tab_expand_from (r + 1) cs

/-- Reference tab expansion of a whole line, from rendered column 0. -/
def tab_expand (s : List Int) : List Int := tab_expand_from 0 s

/-! ## The recognised escape sequences -/

/-- The fifteen escape sequences that the specification names, as the bytes
that follow ESC, each with the key it stands for. -/
def recognised_sequences : List (List Int × Int) :=
  [([91, 65], ARROW_UP), ([91, 66], ARROW_DOWN), ([91, 67], ARROW_RIGHT),
   ([91, 68], ARROW_LEFT), ([91, 72], HOME_KEY), ([79, 72], HOME_KEY),
   ([91, 49, 126], HOME_KEY), ([91, 55, 126], HOME_KEY), ([91, 70], END_KEY),
   ([79, 70], END_KEY), ([91, 52, 126], END_KEY), ([91, 56, 126], END_KEY),
   ([91, 51, 126], DEL_KEY), ([91, 53, 126], PAGE_UP), ([91, 54, 126], PAGE_DOWN)]

/-- Whether the outcomes of the reads that follow ESC start with one of the
recognised sequences, every byte of it delivered. -/
def starts_recognised (rest : List ReadOutcome) : Bool :=
  recognised_sequences.any (fun p => (p.1.map ReadOutcome.byte).isPrefixOf rest)

/-! ## Sample states -/

/-- A state with one row holding a, TAB, b and the cursor at its end. -/
def sample_one_row : EditorConfig :=
  { cx := 3, cy := 0, rx := 0, rowoff := 5, coloff := 40,
    screenrows := 22, screencols := 4,
    numrows := 1, row := [new_row [97, 9, 98]], filename := none,
    statusmsg := [], statusmsg_time := 0 }

/-- The state after loading a file whose only line is `ab` on a 24 by 80
terminal and pressing END: the cursor is at the end of the last row. -/
def last_row_end : EditorConfig :=
  { cx := 2, cy := 0, rx := 0, rowoff := 0, coloff := 0,
    screenrows := 22, screencols := 80,
    numrows := 1, row := [new_row [97, 98]], filename := some [116],
    statusmsg := [], statusmsg_time := 0 }

/-! ## Further definitions and sample states -/

/-- The row handed to `editor_update_row` by `editor_append_row (s, len)`:
`size` and `chars` are set, `rsize` is 0 and `render` is NULL. -/
def raw_row (s : List Int) : Row :=
  { size := (s.length : Int), rsize := 0, chars := s, render := [] }

/-- The bytes written to `render` after `k` iterations of the second loop of
`editor_update_row`; their number is the write index `idx` at that point. -/
def render_after (row : Row) (k : Nat) : List Int :=
  (List.range k).foldl
    (fun (out : List Int) (j : Nat) => update_row_step out (charAt row.chars (Int.ofNat j))) []

/-- The rows hold their render: `rsize` is the number of bytes of `render`. -/
def RenderOk (E : EditorConfig) : Prop :=
  ∀ r ∈ E.row, r.rsize = (r.render.length : Int)

instance (E : EditorConfig) : Decidable (RenderOk E) := by
  unfold RenderOk
  infer_instance

/-- The state after loading a file whose only line is `a` on a terminal of 3
lines and 80 columns (`screenrows` is 1) and pressing the down arrow: the
cursor is on the line past the last row. -/
def past_last_row : EditorConfig :=
  { cx := 0, cy := 1, rx := 0, rowoff := 0, coloff := 0,
    screenrows := 1, screencols := 80,
    numrows := 1, row := [new_row [97]], filename := some [116],
    statusmsg := [], statusmsg_time := 0 }

/-- The state after loading a file with the three lines `a`, `b`, `c` on a
terminal of 2 lines and 80 columns (`screenrows` is 0) and pressing PAGE_UP
three times: the cursor is on the line past the last row. -/
def two_line_terminal_paged : EditorConfig :=
  { cx := 0, cy := 3, rx := 0, rowoff := 3, coloff := 0,
    screenrows := 0, screencols := 80,
    numrows := 3, row := [new_row [97], new_row [98], new_row [99]],
    filename := some [116], statusmsg := [], statusmsg_time := 0 }

/-- A line of 268435456 (2^28) tab characters, 256 MiB. -/
def tabs_line : List Int := List.replicate 268435456 9

/-! ## Lemmas on the row model -/

theorem tab_fill_eq (out : List Int) :
    tab_fill out = out ++ List.replicate ((8 - out.length % 8) % 8) 32 := by
  induction out using tab_fill.induct with
  | case1 out h ih =>
    rw [tab_fill, if_pos h, ih]
    rw [PICO_TAB_STOP, Int.tmod_eq_emod (Int.ofNat_nonneg _) (by decide)] at h
    have hk : (8 - out.length % 8) % 8
        = (8 - (out ++ [32]).length % 8) % 8 + 1 := by
      simp only [List.length_append, List.length_singleton]
      omega
    rw [hk, List.replicate_succ, List.append_assoc]
    rfl
  | case2 out h =>
    rw [tab_fill, if_neg h]
    rw [PICO_TAB_STOP, Int.tmod_eq_emod (Int.ofNat_nonneg _) (by decide)] at h
    have hk : (8 - out.length % 8) % 8 = 0 := by omega
    rw [hk]
    simp

theorem charAt_natCast (s : List Int) (j : Nat) : charAt s (j : Int) = s.getD j 0 := by
  simp [charAt]

theorem foldl_range_charAt {β : Type} (g : β → Int → β) (s : List Int) (init : β) :
    ∀ n : Nat, n ≤ s.length →
      (List.range n).foldl (fun (acc : β) (j : Nat) => g acc (charAt s (Int.ofNat j))) init
        = (s.take n).foldl g init := by
  intro n
  induction n with
  | zero => intro _; simp
  | succ n ih =>
    intro hn
    have hlt : n < s.length := hn
    rw [List.range_succ, List.foldl_append, ih (Nat.le_of_lt hlt), List.take_succ,
      List.foldl_append]
    simp only [Int.ofNat_eq_coe, charAt_natCast, List.getD_eq_getElem _ _ hlt,
      List.getElem?_eq_getElem hlt, Option.toList, List.foldl_cons, List.foldl_nil]

theorem update_row_render (row : Row) (h : row.size = (row.chars.length : Int)) :
    (editor_update_row row).render = row.chars.foldl update_row_step [] := by
  have hn : row.size.toNat = row.chars.length := by omega
  simp only [editor_update_row]
  rw [hn, foldl_range_charAt update_row_step row.chars [] row.chars.length (le_refl _),
    List.take_length]

theorem cx_to_rx_eq_foldl (row : Row) (n : Nat) (h : n ≤ row.chars.length) :
    editor_row_cx_to_rx row (n : Int) = (row.chars.take n).foldl cx_to_rx_step 0 := by
  simp only [editor_row_cx_to_rx, Int.toNat_ofNat]
  exact foldl_range_charAt cx_to_rx_step row.chars 0 n h

theorem update_row_step_length (out : List Int) (c : Int) :
    ((update_row_step out c).length : Int) = cx_to_rx_step (out.length : Int) c := by
  unfold update_row_step cx_to_rx_step
  by_cases hc : c = 9
  · simp only [hc, if_true, tab_fill_eq, List.length_append, List.length_singleton,
      List.length_replicate, PICO_TAB_STOP]
    rw [Int.tmod_eq_emod (Int.ofNat_nonneg _) (by decide)]
    omega
  · simp [hc]

theorem foldl_step_length (s : List Int) :
    ∀ out : List Int, ((s.foldl update_row_step out).length : Int)
      = s.foldl cx_to_rx_step (out.length : Int) := by
  induction s with
  | nil => intro out; rfl
  | cons c cs ih =>
    intro out
    simp only [List.foldl_cons]
    rw [ih, update_row_step_length]

theorem update_row_step_eq (out : List Int) (c : Int) :
    update_row_step out c = out ++ tab_expand_from out.length [c] := by
  unfold update_row_step
  by_cases hc : c = 9
  · simp only [hc, if_true, tab_fill_eq, tab_expand_from, List.append_nil,
      List.length_append, List.length_singleton, List.append_assoc]
    congr 1
    have hk : 8 - out.length % 8 = (8 - (out.length + 1) % 8) % 8 + 1 := by omega
    rw [hk, List.replicate_succ]
    rfl
  · simp [hc, tab_expand_from]

theorem foldl_step_eq (s : List Int) :
    ∀ out : List Int, s.foldl update_row_step out = out ++ tab_expand_from out.length s := by
  induction s with
  | nil => intro out; simp [tab_expand_from]
  | cons c cs ih =>
    intro out
    simp only [List.foldl_cons]
    rw [ih, update_row_step_eq]
    by_cases hc : c = 9
    · simp [hc, tab_expand_from]
    · simp [hc, tab_expand_from]

theorem new_row_size (s : List Int) : (new_row s).size = (s.length : Int) := rfl

theorem new_row_chars (s : List Int) : (new_row s).chars = s := rfl

theorem new_row_render (s : List Int) : (new_row s).render = s.foldl update_row_step [] :=
  update_row_render _ rfl

theorem new_row_rsize (s : List Int) : (new_row s).rsize = ((new_row s).render.length : Int) :=
  rfl

/-- C1: for every row content `s`, on the row built by `editor_update_row`
the column conversion at the end of the row is the length of the render:
`editor_row_cx_to_rx(row, row.size) == row.rsize`. -/
theorem cx_to_rx_size_eq_rsize (s : List Int) :
    editor_row_cx_to_rx (new_row s) (new_row s).size = (new_row s).rsize := by
  rw [new_row_rsize, new_row_render, new_row_size,
    cx_to_rx_eq_foldl (new_row s) s.length (by rw [new_row_chars]), new_row_chars,
    List.take_length, foldl_step_length]
  rfl

/-- C2: for every row content `s`, the render built by `editor_update_row`
is the reference tab expansion with stop width 8 and `rsize` is its length;
appending a non-tab byte to a content appends that byte to the render, and
appending a tab at rendered column `r` appends exactly `8 - r % 8` spaces, the
new length being the smallest multiple of 8 above `r`; the content a, TAB, b
renders as a, seven spaces, b, with `rsize` 9. -/
theorem update_row_render_eq_tab_expand (s : List Int) :
    (new_row s).render = tab_expand s ∧
    (new_row s).rsize = ((tab_expand s).length : Int) ∧
    (∀ c : Int, c ≠ 9 → (new_row (s ++ [c])).render = (new_row s).render ++ [c]) ∧
    (new_row (s ++ [9])).render
      = (new_row s).render ++ List.replicate (8 - (new_row s).render.length % 8) 32 ∧
    (new_row (s ++ [9])).rsize % 8 = 0 ∧
    (new_row s).rsize < (new_row (s ++ [9])).rsize ∧
    (∀ m : Int, m % 8 = 0 → (new_row s).rsize < m → (new_row (s ++ [9])).rsize ≤ m) ∧
    (new_row [97, 9, 98]).render = [97, 32, 32, 32, 32, 32, 32, 32, 98] ∧
    (new_row [97, 9, 98]).rsize = 9 := by
  have hr : ∀ t : List Int, (new_row t).render = tab_expand t := by
    intro t
    rw [new_row_render, foldl_step_eq]
    rfl
  have htab : (new_row (s ++ [9])).render
      = (new_row s).render ++ List.replicate (8 - (new_row s).render.length % 8) 32 := by
    rw [new_row_render, new_row_render, List.foldl_append, List.foldl_cons, List.foldl_nil,
      update_row_step_eq]
    simp [tab_expand_from]
  have hlen : (new_row (s ++ [9])).rsize
      = (new_row s).rsize + (8 - (new_row s).rsize % 8) := by
    rw [new_row_rsize, new_row_rsize, htab, List.length_append, List.length_replicate]
    omega
  have hnn : 0 ≤ (new_row s).rsize := by
    rw [new_row_rsize]
    exact Int.ofNat_nonneg _
  refine ⟨hr s, ?_, ?_, htab, ?_, ?_, ?_, ?_, ?_⟩
  · rw [new_row_rsize, hr]
  · intro c hc
    rw [new_row_render, new_row_render, List.foldl_append, List.foldl_cons, List.foldl_nil,
      update_row_step_eq]
    simp [tab_expand_from, hc]
  · omega
  · omega
  · intro m hm hlt
    omega
  · rw [hr]
    decide
  · rw [new_row_rsize, hr]
    decide

/-! ## The key decoder -/

theorem read_escape_letters (s0 s1 : Int) (t1 : List ReadOutcome)
    (hd : ¬ (s0 = 91 ∧ 48 ≤ s1 ∧ s1 ≤ 57)) :
    (∃ k, read_escape (ReadOutcome.byte s0 :: ReadOutcome.byte s1 :: t1) = (k, t1)) ∧
    (starts_recognised (ReadOutcome.byte s0 :: ReadOutcome.byte s1 :: t1) = false →
      read_escape (ReadOutcome.byte s0 :: ReadOutcome.byte s1 :: t1) = (27, t1)) := by
  unfold read_escape
  simp only [read_seq]
  by_cases h0 : s0 = 91
  · have hd1 : ¬ (48 ≤ s1 ∧ s1 ≤ 57) := fun h => hd ⟨h0, h⟩
    rw [if_pos h0, if_neg hd1]
    constructor
    · split_ifs <;> exact ⟨_, rfl⟩
    · intro h
      simp [starts_recognised, recognised_sequences, List.isPrefixOf] at h
      obtain ⟨a1, a2, a3, a4, a5, -, -, -, a6, -⟩ := h
      rw [if_neg (fun e => a1 h0.symm e.symm), if_neg (fun e => a2 h0.symm e.symm),
        if_neg (fun e => a3 h0.symm e.symm), if_neg (fun e => a4 h0.symm e.symm),
        if_neg (fun e => a5 h0.symm e.symm), if_neg (fun e => a6 h0.symm e.symm)]
  · rw [if_neg h0]
    by_cases h1 : s0 = 79
    · rw [if_pos h1]
      constructor
      · split_ifs <;> exact ⟨_, rfl⟩
      · intro h
        simp [starts_recognised, recognised_sequences, List.isPrefixOf] at h
        obtain ⟨-, -, -, -, -, a1, -, -, -, a2, -⟩ := h
        rw [if_neg (fun e => a1 h1.symm e.symm), if_neg (fun e => a2 h1.symm e.symm)]
    · rw [if_neg h1]
      exact ⟨⟨_, rfl⟩, fun _ => rfl⟩

theorem read_escape_digit_short (s1 : Int) (t1 : List ReadOutcome)
    (hd : 48 ≤ s1 ∧ s1 ≤ 57) (ht : (read_seq t1).1 = none) :
    read_escape (ReadOutcome.byte 91 :: ReadOutcome.byte s1 :: t1) = (27, t1.drop 1) := by
  unfold read_escape
  simp only [read_seq]
  rw [if_pos trivial, if_pos hd]
  rcases t1 with _ | ⟨r2, t2⟩
  · rfl
  · rcases r2 with s2 | _ | e2
    · simp [read_seq] at ht
    · rfl
    · rfl

theorem read_escape_digit (s1 s2 : Int) (t2 : List ReadOutcome)
    (hd : 48 ≤ s1 ∧ s1 ≤ 57) :
    (∃ k, read_escape (ReadOutcome.byte 91 :: ReadOutcome.byte s1 :: ReadOutcome.byte s2 :: t2)
      = (k, t2)) ∧
    (starts_recognised (ReadOutcome.byte 91 :: ReadOutcome.byte s1 :: ReadOutcome.byte s2 :: t2)
        = false →
      read_escape (ReadOutcome.byte 91 :: ReadOutcome.byte s1 :: ReadOutcome.byte s2 :: t2)
        = (27, t2)) := by
  unfold read_escape
  simp only [read_seq]
  rw [if_pos trivial, if_pos hd]
  by_cases h2 : s2 = 126
  · rw [if_pos h2]
    constructor
    · split_ifs <;> exact ⟨_, rfl⟩
    · intro h
      simp [starts_recognised, recognised_sequences, List.isPrefixOf] at h
      obtain ⟨-, -, -, -, -, a1, a7, -, a4, a8, a3, a5, a6⟩ := h
      rw [if_neg (fun e => a1 e.symm h2.symm), if_neg (fun e => a3 e.symm h2.symm),
        if_neg (fun e => a4 e.symm h2.symm), if_neg (fun e => a5 e.symm h2.symm),
        if_neg (fun e => a6 e.symm h2.symm), if_neg (fun e => a7 e.symm h2.symm),
        if_neg (fun e => a8 e.symm h2.symm)]
  · rw [if_neg h2]
    exact ⟨⟨_, rfl⟩, fun _ => rfl⟩


theorem read_escape_spec (rest : List ReadOutcome) :
    ∃ k n, n ≤ 3 ∧ read_escape rest = (k, rest.drop n) ∧
      (starts_recognised rest = false → k = 27) := by
  rcases rest with _ | ⟨r0, t0⟩
  · exact ⟨27, 0, by decide, rfl, fun _ => rfl⟩
  rcases r0 with s0 | _ | e0
  rotate_left
  · exact ⟨27, 1, by decide, rfl, fun _ => rfl⟩
  · exact ⟨27, 1, by decide, rfl, fun _ => rfl⟩
  rcases t0 with _ | ⟨r1, t1⟩
  · exact ⟨27, 1, by decide, rfl, fun _ => rfl⟩
  rcases r1 with s1 | _ | e1
  rotate_left
  · exact ⟨27, 2, by decide, rfl, fun _ => rfl⟩
  · exact ⟨27, 2, by decide, rfl, fun _ => rfl⟩
  by_cases hd : s0 = 91 ∧ 48 ≤ s1 ∧ s1 ≤ 57
  · obtain ⟨rfl, hd⟩ := hd
    rcases t1 with _ | ⟨r2, t2⟩
    · exact ⟨27, 3, by decide, read_escape_digit_short s1 [] hd rfl, fun _ => rfl⟩
    rcases r2 with s2 | _ | e2
    · obtain ⟨⟨k, hk⟩, h27⟩ := read_escape_digit s1 s2 t2 hd
      refine ⟨k, 3, by decide, hk, fun h => ?_⟩
      have h2 := h27 h
      rw [hk] at h2
      exact (Prod.mk.inj h2).1
    · exact ⟨27, 3, by decide, read_escape_digit_short s1 _ hd rfl, fun _ => rfl⟩
    · exact ⟨27, 3, by decide, read_escape_digit_short s1 _ hd rfl, fun _ => rfl⟩
  · obtain ⟨⟨k, hk⟩, h27⟩ := read_escape_letters s0 s1 t1 hd
    refine ⟨k, 2, by decide, hk, fun h => ?_⟩
    have h2 := h27 h
    rw [hk] at h2
    exact (Prod.mk.inj h2).1

theorem read_key_skip (pre tail : List ReadOutcome)
    (hpre : ∀ r ∈ pre, r = ReadOutcome.timeout ∨ r = ReadOutcome.error true) :
    editor_read_key (pre ++ tail) = editor_read_key tail := by
  induction pre with
  | nil => rfl
  | cons r rs ih =>
    have hrs : ∀ x ∈ rs, x = ReadOutcome.timeout ∨ x = ReadOutcome.error true :=
      fun x hx => hpre x (List.mem_cons_of_mem _ hx)
    rcases hpre r (List.mem_cons_self _ _) with h | h
    · subst h
      simpa [editor_read_key] using ih hrs
    · subst h
      simpa [editor_read_key] using ih hrs

theorem read_key_esc (rest : List ReadOutcome) :
    editor_read_key (ReadOutcome.byte 27 :: rest)
      = KeyResult.key (read_escape rest).1 (read_escape rest).2 := by
  simp [editor_read_key]

/-- C5: when the reads after ESC deliver one of the fifteen recognised
sequences, `editor_read_key` returns the named key and leaves exactly the
outcomes after the sequence unread: ESC [ A, B, C, D are the arrows up, down,
right, left; ESC [ H, ESC O H, ESC [ 1 ~, ESC [ 7 ~ are HOME; ESC [ F, ESC O F,
ESC [ 4 ~, ESC [ 8 ~ are END; ESC [ 3 ~ is DEL; ESC [ 5 ~ is PAGE_UP and
ESC [ 6 ~ is PAGE_DOWN. -/
theorem read_key_recognised (rest : List ReadOutcome) :
    editor_read_key (ReadOutcome.byte 27 :: ReadOutcome.byte 91 :: ReadOutcome.byte 65 :: rest)
      = KeyResult.key ARROW_UP rest ∧
    editor_read_key (ReadOutcome.byte 27 :: ReadOutcome.byte 91 :: ReadOutcome.byte 66 :: rest)
      = KeyResult.key ARROW_DOWN rest ∧
    editor_read_key (ReadOutcome.byte 27 :: ReadOutcome.byte 91 :: ReadOutcome.byte 67 :: rest)
      = KeyResult.key ARROW_RIGHT rest ∧
    editor_read_key (ReadOutcome.byte 27 :: ReadOutcome.byte 91 :: ReadOutcome.byte 68 :: rest)
      = KeyResult.key ARROW_LEFT rest ∧
    editor_read_key (ReadOutcome.byte 27 :: ReadOutcome.byte 91 :: ReadOutcome.byte 72 :: rest)
      = KeyResult.key HOME_KEY rest ∧
    editor_read_key (ReadOutcome.byte 27 :: ReadOutcome.byte 79 :: ReadOutcome.byte 72 :: rest)
      = KeyResult.key HOME_KEY rest ∧
    editor_read_key (ReadOutcome.byte 27 :: ReadOutcome.byte 91 :: ReadOutcome.byte 49 ::
        ReadOutcome.byte 126 :: rest) = KeyResult.key HOME_KEY rest ∧
    editor_read_key (ReadOutcome.byte 27 :: ReadOutcome.byte 91 :: ReadOutcome.byte 55 ::
        ReadOutcome.byte 126 :: rest) = KeyResult.key HOME_KEY rest ∧
    editor_read_key (ReadOutcome.byte 27 :: ReadOutcome.byte 91 :: ReadOutcome.byte 70 :: rest)
      = KeyResult.key END_KEY rest ∧
    editor_read_key (ReadOutcome.byte 27 :: ReadOutcome.byte 79 :: ReadOutcome.byte 70 :: rest)
      = KeyResult.key END_KEY rest ∧
    editor_read_key (ReadOutcome.byte 27 :: ReadOutcome.byte 91 :: ReadOutcome.byte 52 ::
        ReadOutcome.byte 126 :: rest) = KeyResult.key END_KEY rest ∧
    editor_read_key (ReadOutcome.byte 27 :: ReadOutcome.byte 91 :: ReadOutcome.byte 56 ::
        ReadOutcome.byte 126 :: rest) = KeyResult.key END_KEY rest ∧
    editor_read_key (ReadOutcome.byte 27 :: ReadOutcome.byte 91 :: ReadOutcome.byte 51 ::
        ReadOutcome.byte 126 :: rest) = KeyResult.key DEL_KEY rest ∧
    editor_read_key (ReadOutcome.byte 27 :: ReadOutcome.byte 91 :: ReadOutcome.byte 53 ::
        ReadOutcome.byte 126 :: rest) = KeyResult.key PAGE_UP rest ∧
    editor_read_key (ReadOutcome.byte 27 :: ReadOutcome.byte 91 :: ReadOutcome.byte 54 ::
        ReadOutcome.byte 126 :: rest) = KeyResult.key PAGE_DOWN rest :=
  ⟨rfl, rfl, rfl, rfl, rfl, rfl, rfl, rfl, rfl, rfl, rfl, rfl, rfl, rfl, rfl⟩

/-- C6: on every input whose first delivered byte is ESC (after any number
of timeouts and `EAGAIN` failures), `editor_read_key` returns a key, having
consumed at most three of the outcomes that follow ESC; and when those
outcomes do not start with one of the fifteen recognised sequences the key is
the bare ESC value 27.  The decoder neither dies nor blocks nor reads a fourth
follow byte. -/
theorem read_key_escape_fallback (pre rest : List ReadOutcome)
    (hpre : ∀ r ∈ pre, r = ReadOutcome.timeout ∨ r = ReadOutcome.error true) :
    (∃ k n, n ≤ 3 ∧
      editor_read_key (pre ++ ReadOutcome.byte 27 :: rest) = KeyResult.key k (rest.drop n)) ∧
    (starts_recognised rest = false →
      ∃ n, n ≤ 3 ∧
        editor_read_key (pre ++ ReadOutcome.byte 27 :: rest)
          = KeyResult.key 27 (rest.drop n)) := by
  obtain ⟨k, n, hn, hk, h27⟩ := read_escape_spec rest
  rw [read_key_skip pre _ hpre, read_key_esc, hk]
  refine ⟨⟨k, n, hn, rfl⟩, fun h => ⟨n, hn, ?_⟩⟩
  rw [h27 h]

theorem read_key_escape_fallback_witness :
    (∀ r ∈ [ReadOutcome.timeout, ReadOutcome.error true],
      r = ReadOutcome.timeout ∨ r = ReadOutcome.error true) ∧
    starts_recognised [ReadOutcome.byte 91, ReadOutcome.byte 50, ReadOutcome.byte 126,
      ReadOutcome.byte 120] = false ∧
    ∃ n, n ≤ 3 ∧
      editor_read_key ([ReadOutcome.timeout, ReadOutcome.error true] ++
          ReadOutcome.byte 27 :: [ReadOutcome.byte 91, ReadOutcome.byte 50,
            ReadOutcome.byte 126, ReadOutcome.byte 120])
        = KeyResult.key 27
            ([ReadOutcome.byte 91, ReadOutcome.byte 50, ReadOutcome.byte 126,
              ReadOutcome.byte 120].drop n) :=
  ⟨by decide, by decide,
    (read_key_escape_fallback [ReadOutcome.timeout, ReadOutcome.error true]
      [ReadOutcome.byte 91, ReadOutcome.byte 50, ReadOutcome.byte 126, ReadOutcome.byte 120]
      (by decide)).2 (by decide)⟩

/-! ## Scrolling -/

theorem scroll_window (E : EditorConfig) (hr : 1 ≤ E.screenrows) (hc : 1 ≤ E.screencols) :
    (editor_scroll E).rowoff ≤ (editor_scroll E).cy ∧
    (editor_scroll E).cy < (editor_scroll E).rowoff + (editor_scroll E).screenrows ∧
    (editor_scroll E).coloff ≤ (editor_scroll E).rx ∧
    (editor_scroll E).rx < (editor_scroll E).coloff + (editor_scroll E).screencols := by
  simp only [editor_scroll]
  split_ifs <;> dsimp only at * <;> omega

theorem scroll_rx (E : EditorConfig) :
    (editor_scroll E).rx
      = if E.cy < E.numrows then editor_row_cx_to_rx (rowAt E.row E.cy) E.cx else 0 := by
  simp only [editor_scroll]
  split_ifs <;> rfl

/-- C4: in every state with `numrows > 0`, `screenrows >= 1` and
`screencols >= 1`, whatever `rowoff` and `coloff` were, after `editor_scroll`
the field `rx` is the column recomputed from `cx` and the cursor is inside
the window: `rowoff <= cy < rowoff + screenrows` and
`coloff <= rx < coloff + screencols`. -/
theorem scroll_invariant (E : EditorConfig) (_hn : 0 < E.numrows)
    (hr : 1 ≤ E.screenrows) (hc : 1 ≤ E.screencols) :
    (editor_scroll E).rx
      = (if E.cy < E.numrows then editor_row_cx_to_rx (rowAt E.row E.cy) E.cx else 0) ∧
    (editor_scroll E).rowoff ≤ (editor_scroll E).cy ∧
    (editor_scroll E).cy < (editor_scroll E).rowoff + (editor_scroll E).screenrows ∧
    (editor_scroll E).coloff ≤ (editor_scroll E).rx ∧
    (editor_scroll E).rx < (editor_scroll E).coloff + (editor_scroll E).screencols :=
  ⟨scroll_rx E, scroll_window E hr hc⟩

theorem scroll_invariant_witness :
    0 < sample_one_row.numrows ∧ 1 ≤ sample_one_row.screenrows ∧
    1 ≤ sample_one_row.screencols ∧
    (editor_scroll sample_one_row).rowoff ≤ (editor_scroll sample_one_row).cy ∧
    (editor_scroll sample_one_row).cy
      < (editor_scroll sample_one_row).rowoff + (editor_scroll sample_one_row).screenrows ∧
    (editor_scroll sample_one_row).coloff ≤ (editor_scroll sample_one_row).rx ∧
    (editor_scroll sample_one_row).rx
      < (editor_scroll sample_one_row).coloff + (editor_scroll sample_one_row).screencols :=
  ⟨by decide, by decide, by decide,
    (scroll_invariant sample_one_row (by decide) (by decide) (by decide)).2⟩

/-! ## Cursor moves -/

theorem switch_up (E : EditorConfig) :
    move_cursor_switch ARROW_UP E = if E.cy ≠ 0 then { E with cy := E.cy - 1 } else E := by
  simp [move_cursor_switch, ARROW_UP, ARROW_LEFT, ARROW_RIGHT]

theorem switch_down (E : EditorConfig) :
    move_cursor_switch ARROW_DOWN E
      = if E.cy < E.numrows then { E with cy := E.cy + 1 } else E := by
  simp [move_cursor_switch, ARROW_UP, ARROW_LEFT, ARROW_RIGHT, ARROW_DOWN]

theorem switch_left (E : EditorConfig) :
    move_cursor_switch ARROW_LEFT E
      = if E.cx ≠ 0 then { E with cx := E.cx - 1 }
        else if E.cy > 0 then { E with cy := E.cy - 1, cx := (rowAt E.row (E.cy - 1)).size }
        else E := by
  simp [move_cursor_switch, ARROW_LEFT]

theorem switch_right (E : EditorConfig) :
    move_cursor_switch ARROW_RIGHT E
      = if E.cy < E.numrows then
          if E.cx < (rowAt E.row E.cy).size then { E with cx := E.cx + 1 }
          else if E.cx = (rowAt E.row E.cy).size then { E with cy := E.cy + 1, cx := 0 }
          else E
        else E := by
  by_cases h : E.cy < E.numrows
  · have h2 : ¬ E.cy ≥ E.numrows := by omega
    simp [move_cursor_switch, ARROW_LEFT, ARROW_RIGHT, cursor_row, h, h2]
  · have h2 : E.cy ≥ E.numrows := by omega
    simp [move_cursor_switch, ARROW_LEFT, ARROW_RIGHT, cursor_row, h, h2]

theorem move_cursor_eq (key : Int) (E : EditorConfig) :
    editor_move_cursor key E
      = if (move_cursor_switch key E).cx
            > (if (move_cursor_switch key E).cy < (move_cursor_switch key E).numrows
                then (rowAt (move_cursor_switch key E).row (move_cursor_switch key E).cy).size
                else 0)
        then { move_cursor_switch key E with
                cx := if (move_cursor_switch key E).cy < (move_cursor_switch key E).numrows
                  then (rowAt (move_cursor_switch key E).row (move_cursor_switch key E).cy).size
                  else 0 }
        else move_cursor_switch key E := by
  simp only [editor_move_cursor, cursor_row]
  by_cases h : (move_cursor_switch key E).cy < (move_cursor_switch key E).numrows
  · have h2 : ¬ (move_cursor_switch key E).cy ≥ (move_cursor_switch key E).numrows := by omega
    simp only [h, h2, if_true, if_false]
  · have h2 : (move_cursor_switch key E).cy ≥ (move_cursor_switch key E).numrows := by omega
    simp only [h, h2, if_true, if_false]

theorem rowAt_mem (rows : List Row) (i : Int) : rowAt rows i ∈ rows ∨ rowAt rows i = nullRow := by
  unfold rowAt
  split_ifs with h
  · by_cases hi : i.toNat < rows.length
    · left
      rw [List.getD_eq_getElem _ _ hi]
      exact List.getElem_mem hi
    · right
      exact List.getD_eq_default _ _ (by omega)
  · right; rfl

theorem rowAt_size_nonneg (E : EditorConfig) (h : RowsOk E) (i : Int) :
    0 ≤ (rowAt E.row i).size := by
  rcases rowAt_mem E.row i with hm | hn
  · rw [h.2 _ hm]
    exact Int.ofNat_nonneg _
  · rw [hn]
    decide

/-- C7: in every state that satisfies the cursor invariant,
`editor_move_cursor(ARROW_UP)` sets `cy` to `max(cy - 1, 0)` and
`editor_move_cursor(ARROW_DOWN)` sets it to `min(cy + 1, numrows)`; in both
cases the new `cx` is the minimum of the old `cx` and the size of the new row
`cy` (0 when the new `cy` is `numrows`); moving down from the last row or
from past it leaves `cy == numrows` and `cx == 0`. -/
theorem move_cursor_vertical (E : EditorConfig) (h : CursorInv E) :
    (editor_move_cursor ARROW_UP E).cy = max (E.cy - 1) 0 ∧
    (editor_move_cursor ARROW_DOWN E).cy = min (E.cy + 1) E.numrows ∧
    (∀ key : Int, key = ARROW_UP ∨ key = ARROW_DOWN →
      (editor_move_cursor key E).cx
        = min E.cx
            (if (editor_move_cursor key E).cy = (editor_move_cursor key E).numrows then 0
             else (rowAt (editor_move_cursor key E).row (editor_move_cursor key E).cy).size)) ∧
    (E.numrows ≤ E.cy + 1 →
      (editor_move_cursor ARROW_DOWN E).cy = E.numrows ∧
      (editor_move_cursor ARROW_DOWN E).cx = 0) := by
  obtain ⟨h0, h1, h2, h3⟩ := h
  refine ⟨?_, ?_, ?_, ?_⟩
  · rw [move_cursor_eq, switch_up]
    split_ifs <;> (try dsimp only at *) <;> omega
  · rw [move_cursor_eq, switch_down]
    split_ifs <;> (try dsimp only at *) <;> omega
  · rintro key (rfl | rfl)
    · rw [move_cursor_eq, switch_up]
      split_ifs <;> (try dsimp only at *) <;> omega
    · rw [move_cursor_eq, switch_down]
      split_ifs <;> (try dsimp only at *) <;> omega
  · intro hl
    rw [move_cursor_eq, switch_down]
    split_ifs <;> (try dsimp only at *) <;> omega

/-- C8, counterexample: after loading the one-line file `ab` and pressing
END the cursor is at the end of the last row (`cy == numrows - 1`,
`cx == size`); `editor_move_cursor(ARROW_RIGHT)` then moves it to
`cy == 1 == numrows`, `cx == 0`, so it does not stay where it was. -/
theorem arrow_right_leaves_last_row :
    run_frames [END_KEY] (startup 24 80 (some ([116], [[97, 98, 10]]))) = some last_row_end ∧
    0 < last_row_end.numrows ∧
    last_row_end.cy = last_row_end.numrows - 1 ∧
    last_row_end.cx = (rowAt last_row_end.row last_row_end.cy).size ∧
    (editor_move_cursor ARROW_RIGHT last_row_end).cy = 1 ∧
    (editor_move_cursor ARROW_RIGHT last_row_end).cx = 0 ∧
    ¬ ((editor_move_cursor ARROW_RIGHT last_row_end).cy = last_row_end.numrows - 1 ∧
       (editor_move_cursor ARROW_RIGHT last_row_end).cx
         = (rowAt last_row_end.row last_row_end.cy).size) := by
  decide

/-- C8, amended: in every state with `numrows > 0`, `cy == numrows - 1` and
`cx` equal to the size of that last row, `editor_move_cursor(ARROW_RIGHT)`
moves the cursor to the start of the line past the last row: afterwards
`cy == numrows` and `cx == 0`. -/
theorem right_at_last_row_end (E : EditorConfig) (_hn : 0 < E.numrows)
    (hcy : E.cy = E.numrows - 1) (hcx : E.cx = (rowAt E.row E.cy).size) :
    (editor_move_cursor ARROW_RIGHT E).cy = E.numrows ∧
    (editor_move_cursor ARROW_RIGHT E).cx = 0 := by
  rw [move_cursor_eq, switch_right]
  split_ifs <;> (try dsimp only at *) <;> omega

theorem right_at_last_row_end_witness :
    0 < last_row_end.numrows ∧
    last_row_end.cy = last_row_end.numrows - 1 ∧
    last_row_end.cx = (rowAt last_row_end.row last_row_end.cy).size ∧
    (editor_move_cursor ARROW_RIGHT last_row_end).cy = last_row_end.numrows ∧
    (editor_move_cursor ARROW_RIGHT last_row_end).cx = 0 :=
  ⟨by decide, by decide, by decide,
    right_at_last_row_end last_row_end (by decide) (by decide) (by decide)⟩

/-- C9: in every state with well-formed rows that satisfies the cursor
invariant, `editor_move_cursor(ARROW_LEFT)` gives `(cy, cx - 1)` when
`cx > 0`, gives `(cy - 1, size of row cy - 1)` when `cx == 0` and `cy > 0`,
and changes nothing at `(0, 0)`; `editor_move_cursor(ARROW_RIGHT)` gives
`(cy, cx + 1)` when `cy < numrows` and `cx < size of row cy`, gives
`(cy + 1, 0)` when `cx` is the size of row `cy` and `cy + 1 < numrows`, and
changes nothing when `cy == numrows`. -/
theorem move_cursor_horizontal (E : EditorConfig) (hrows : RowsOk E) (h : CursorInv E) :
    (0 < E.cx →
      (editor_move_cursor ARROW_LEFT E).cy = E.cy ∧
      (editor_move_cursor ARROW_LEFT E).cx = E.cx - 1) ∧
    (E.cx = 0 → 0 < E.cy →
      (editor_move_cursor ARROW_LEFT E).cy = E.cy - 1 ∧
      (editor_move_cursor ARROW_LEFT E).cx = (rowAt E.row (E.cy - 1)).size) ∧
    (E.cx = 0 → E.cy = 0 → editor_move_cursor ARROW_LEFT E = E) ∧
    (E.cy < E.numrows → E.cx < (rowAt E.row E.cy).size →
      (editor_move_cursor ARROW_RIGHT E).cy = E.cy ∧
      (editor_move_cursor ARROW_RIGHT E).cx = E.cx + 1) ∧
    (E.cy + 1 < E.numrows → E.cx = (rowAt E.row E.cy).size →
      (editor_move_cursor ARROW_RIGHT E).cy = E.cy + 1 ∧
      (editor_move_cursor ARROW_RIGHT E).cx = 0) ∧
    (E.cy = E.numrows → editor_move_cursor ARROW_RIGHT E = E) := by
  obtain ⟨h0, h1, h2, h3⟩ := h
  refine ⟨?_, ?_, ?_, ?_, ?_, ?_⟩
  · intro hx
    rw [move_cursor_eq, switch_left]
    split_ifs <;> (try dsimp only at *) <;> omega
  · intro hx hy
    rw [move_cursor_eq, switch_left]
    split_ifs <;> (try dsimp only at *) <;> omega
  · intro hx hy
    rw [move_cursor_eq, switch_left]
    split_ifs <;> (try dsimp only at *) <;> first | rfl | omega
  · intro hy hx
    rw [move_cursor_eq, switch_right]
    split_ifs <;> (try dsimp only at *) <;> omega
  · intro hy hx
    have hs := rowAt_size_nonneg E hrows (E.cy + 1)
    rw [move_cursor_eq, switch_right]
    split_ifs <;> (try dsimp only at *) <;> omega
  · intro hy
    rw [move_cursor_eq, switch_right]
    split_ifs <;> (try dsimp only at *) <;> first | rfl | omega

theorem ctrl_q : CTRL_KEY 113 = 17 := by decide

theorem switch_other (key : Int) (E : EditorConfig) (h1 : key ≠ ARROW_LEFT)
    (h2 : key ≠ ARROW_RIGHT) (h3 : key ≠ ARROW_UP) (h4 : key ≠ ARROW_DOWN) :
    move_cursor_switch key E = E := by
  simp [move_cursor_switch, h1, h2, h3, h4]

theorem sameExceptCursor_refl (E : EditorConfig) : SameExceptCursor E E :=
  ⟨rfl, rfl, rfl, rfl, rfl, rfl, rfl, rfl, rfl, rfl⟩

theorem sameExceptCursor_trans {E E1 E2 : EditorConfig} (h1 : SameExceptCursor E E1)
    (h2 : SameExceptCursor E1 E2) : SameExceptCursor E E2 := by
  obtain ⟨a1, a2, a3, a4, a5, a6, a7, a8, a9, a10⟩ := h1
  obtain ⟨b1, b2, b3, b4, b5, b6, b7, b8, b9, b10⟩ := h2
  exact ⟨b1.trans a1, b2.trans a2, b3.trans a3, b4.trans a4, b5.trans a5, b6.trans a6,
    b7.trans a7, b8.trans a8, b9.trans a9, b10.trans a10⟩

theorem switch_same (key : Int) (E : EditorConfig) :
    SameExceptCursor E (move_cursor_switch key E) := by
  by_cases h1 : key = ARROW_LEFT
  · rw [h1, switch_left]
    split_ifs <;> exact sameExceptCursor_refl E
  by_cases h2 : key = ARROW_RIGHT
  · rw [h2, switch_right]
    split_ifs <;> exact sameExceptCursor_refl E
  by_cases h3 : key = ARROW_UP
  · rw [h3, switch_up]
    split_ifs <;> exact sameExceptCursor_refl E
  by_cases h4 : key = ARROW_DOWN
  · rw [h4, switch_down]
    split_ifs <;> exact sameExceptCursor_refl E
  rw [switch_other key E h1 h2 h3 h4]
  exact sameExceptCursor_refl E

theorem move_cursor_same (key : Int) (E : EditorConfig) :
    SameExceptCursor E (editor_move_cursor key E) := by
  rw [move_cursor_eq]
  split_ifs <;> exact switch_same key E

theorem rowsOk_of_same {E E1 : EditorConfig} (h : SameExceptCursor E E1) (hr : RowsOk E) :
    RowsOk E1 := by
  obtain ⟨-, -, -, -, -, a6, a7, -⟩ := h
  unfold RowsOk at *
  rw [a6, a7]
  exact hr

theorem cursorWeak_of_inv {E : EditorConfig} (h : CursorInv E) : CursorWeak E := by
  obtain ⟨h0, h1, h2, h3⟩ := h
  refine ⟨h0, h1, ?_⟩
  by_cases hc : E.cy < E.numrows
  · exact (h2 hc).1
  · have : E.cy = E.numrows := by omega
    rw [h3 this]

theorem move_cursor_inv (key : Int) (E : EditorConfig) (hr : RowsOk E) (h : CursorWeak E) :
    CursorInv (editor_move_cursor key E) := by
  obtain ⟨h0, h1, h2⟩ := h
  have s0 := rowAt_size_nonneg E hr E.cy
  have s1 := rowAt_size_nonneg E hr (E.cy - 1)
  have s2 := rowAt_size_nonneg E hr (E.cy + 1)
  unfold CursorInv
  by_cases k1 : key = ARROW_LEFT
  · rw [k1, move_cursor_eq, switch_left]
    split_ifs <;> (try dsimp only at *) <;> omega
  by_cases k2 : key = ARROW_RIGHT
  · rw [k2, move_cursor_eq, switch_right]
    split_ifs <;> (try dsimp only at *) <;> omega
  by_cases k3 : key = ARROW_UP
  · rw [k3, move_cursor_eq, switch_up]
    split_ifs <;> (try dsimp only at *) <;> omega
  by_cases k4 : key = ARROW_DOWN
  · rw [k4, move_cursor_eq, switch_down]
    split_ifs <;> (try dsimp only at *) <;> omega
  rw [move_cursor_eq, switch_other key E k1 k2 k3 k4]
  split_ifs <;> (try dsimp only at *) <;> omega


theorem move_times_same (key : Int) (n : Nat) :
    ∀ E : EditorConfig, SameExceptCursor E (move_cursor_times key n E) := by
  induction n with
  | zero => intro E; exact sameExceptCursor_refl E
  | succ n ih =>
    intro E
    exact sameExceptCursor_trans (move_cursor_same key E) (ih _)

theorem move_times_inv (key : Int) (n : Nat) :
    ∀ E : EditorConfig, RowsOk E → CursorInv E → CursorInv (move_cursor_times key n E) := by
  induction n with
  | zero => intro E _ h; exact h
  | succ n ih =>
    intro E hr h
    exact ih _ (rowsOk_of_same (move_cursor_same key E) hr)
      (move_cursor_inv key E hr (cursorWeak_of_inv h))

theorem move_times_inv_weak (key : Int) (n : Nat) (hn : 1 ≤ n) (E : EditorConfig)
    (hr : RowsOk E) (h : CursorWeak E) : CursorInv (move_cursor_times key n E) := by
  obtain ⟨m, rfl⟩ : ∃ m, n = m + 1 := ⟨n - 1, by omega⟩
  exact move_times_inv key m _ (rowsOk_of_same (move_cursor_same key E) hr)
    (move_cursor_inv key E hr h)

theorem move_up_cy (E : EditorConfig) (h : 0 ≤ E.cy) :
    (editor_move_cursor ARROW_UP E).cy = max (E.cy - 1) 0 := by
  rw [move_cursor_eq, switch_up]
  split_ifs <;> (try dsimp only at *) <;> omega

theorem move_down_cy (E : EditorConfig) (h : E.cy ≤ E.numrows) :
    (editor_move_cursor ARROW_DOWN E).cy = min (E.cy + 1) E.numrows := by
  rw [move_cursor_eq, switch_down]
  split_ifs <;> (try dsimp only at *) <;> omega

theorem move_times_up_cy (n : Nat) :
    ∀ E : EditorConfig, 0 ≤ E.cy →
      (move_cursor_times ARROW_UP n E).cy = max (E.cy - (n : Int)) 0 := by
  induction n with
  | zero => intro E h; simp only [move_cursor_times]; omega
  | succ n ih =>
    intro E h
    have h1 := move_up_cy E h
    simp only [move_cursor_times]
    rw [ih _ (by omega), h1]
    omega

theorem move_times_down_cy (n : Nat) :
    ∀ E : EditorConfig, E.cy ≤ E.numrows →
      (move_cursor_times ARROW_DOWN n E).cy = min (E.cy + (n : Int)) E.numrows := by
  induction n with
  | zero => intro E h; simp only [move_cursor_times]; omega
  | succ n ih =>
    intro E h
    have h1 := move_down_cy E h
    have h2 : (editor_move_cursor ARROW_DOWN E).numrows = E.numrows :=
      (move_cursor_same ARROW_DOWN E).2.2.2.2.2.1
    simp only [move_cursor_times]
    rw [ih _ (by omega), h1, h2]
    omega

theorem process_page_up (E : EditorConfig) :
    process_key PAGE_UP E
      = some (move_cursor_times ARROW_UP E.screenrows.toNat { E with cy := E.rowoff }) := by
  simp [process_key, ctrl_q, PAGE_UP, HOME_KEY, END_KEY]

theorem process_page_down (E : EditorConfig) :
    process_key PAGE_DOWN E
      = some (move_cursor_times ARROW_DOWN E.screenrows.toNat
          { E with cy := min (E.rowoff + E.screenrows - 1) E.numrows }) := by
  simp only [process_key, ctrl_q, PAGE_UP, PAGE_DOWN, HOME_KEY, END_KEY]
  simp only [show ¬ ((1008 : Int) = 17) by decide, show ¬ ((1008 : Int) = 1005) by decide,
    show ¬ ((1008 : Int) = 1006) by decide, show ¬ ((1008 : Int) = 1007) by decide,
    if_false, if_true, false_or, or_true]
  by_cases h : E.rowoff + E.screenrows - 1 > E.numrows
  · have hm : min (E.rowoff + E.screenrows - 1) E.numrows = E.numrows := by omega
    simp [h, hm]
  · have hm : min (E.rowoff + E.screenrows - 1) E.numrows = E.rowoff + E.screenrows - 1 := by
      omega
    simp [h, hm]

/-- C10: in every state with well-formed rows, `screenrows >= 1`,
`0 <= rowoff <= numrows` and the cursor invariant, `editor_process_keypress`
on PAGE_UP continues with `cy == max(0, rowoff - screenrows)` and on
PAGE_DOWN with `cy == min(numrows, rowoff + 2*screenrows - 1)`; the rows are
unchanged, the resulting `cx` is at most the size of the resulting row and is
0 when the resulting `cy` is `numrows`, and the cursor invariant holds. -/
theorem paging_stops_at_boundaries (E : EditorConfig) (hrows : RowsOk E)
    (hs : 1 ≤ E.screenrows) (hlo : 0 ≤ E.rowoff) (hhi : E.rowoff ≤ E.numrows)
    (h : CursorInv E) :
    ∃ U D : EditorConfig,
      process_key PAGE_UP E = some U ∧ process_key PAGE_DOWN E = some D ∧
      U.cy = max 0 (E.rowoff - E.screenrows) ∧
      D.cy = min E.numrows (E.rowoff + 2 * E.screenrows - 1) ∧
      U.numrows = E.numrows ∧ U.row = E.row ∧ D.numrows = E.numrows ∧ D.row = E.row ∧
      (U.cy < U.numrows → U.cx ≤ (rowAt U.row U.cy).size) ∧ (U.cy = U.numrows → U.cx = 0) ∧
      (D.cy < D.numrows → D.cx ≤ (rowAt D.row D.cy).size) ∧ (D.cy = D.numrows → D.cx = 0) ∧
      CursorInv U ∧ CursorInv D := by
  have hw := cursorWeak_of_inv h
  obtain ⟨w0, w1, w2⟩ := hw
  have hn : 1 ≤ E.screenrows.toNat := by omega
  have hcast : (E.screenrows.toNat : Int) = E.screenrows := by omega
  have hU : CursorInv (move_cursor_times ARROW_UP E.screenrows.toNat { E with cy := E.rowoff }) :=
    move_times_inv_weak ARROW_UP _ hn _ hrows ⟨hlo, hhi, w2⟩
  have hD : CursorInv (move_cursor_times ARROW_DOWN E.screenrows.toNat
      { E with cy := min (E.rowoff + E.screenrows - 1) E.numrows }) :=
    move_times_inv_weak ARROW_DOWN _ hn _ hrows
      ⟨by dsimp only; omega, by dsimp only; omega, w2⟩
  have sU := move_times_same ARROW_UP E.screenrows.toNat { E with cy := E.rowoff }
  have sD := move_times_same ARROW_DOWN E.screenrows.toNat
    { E with cy := min (E.rowoff + E.screenrows - 1) E.numrows }
  refine ⟨_, _, process_page_up E, process_page_down E, ?_, ?_, sU.2.2.2.2.2.1, sU.2.2.2.2.2.2.1,
    sD.2.2.2.2.2.1, sD.2.2.2.2.2.2.1, fun hc => (hU.2.2.1 hc).2, hU.2.2.2,
    fun hc => (hD.2.2.1 hc).2, hD.2.2.2, hU, hD⟩
  · rw [move_times_up_cy _ _ (by dsimp only; omega), hcast]
    dsimp only
    omega
  · rw [move_times_down_cy _ _ (by dsimp only; omega), hcast]
    dsimp only
    omega

/-! ## Frames -/

theorem scroll_fields (E : EditorConfig) :
    (editor_scroll E).cx = E.cx ∧ (editor_scroll E).cy = E.cy ∧
    (editor_scroll E).numrows = E.numrows ∧ (editor_scroll E).row = E.row ∧
    (editor_scroll E).screenrows = E.screenrows ∧
    (editor_scroll E).screencols = E.screencols := by
  simp only [editor_scroll]
  split_ifs <;> exact ⟨rfl, rfl, rfl, rfl, rfl, rfl⟩

theorem scroll_rowoff_nonneg (E : EditorConfig) (h0 : 0 ≤ E.rowoff) (hcy : 0 ≤ E.cy)
    (hs : 1 ≤ E.screenrows) :
    0 ≤ (editor_scroll E).rowoff ∧ (editor_scroll E).rowoff ≤ (editor_scroll E).cy := by
  simp only [editor_scroll]
  split_ifs <;> (try dsimp only at *) <;> omega

theorem cursorInv_congr {E E1 : EditorConfig} (hx : E1.cx = E.cx) (hy : E1.cy = E.cy)
    (hn : E1.numrows = E.numrows) (hr : E1.row = E.row) (h : CursorInv E) : CursorInv E1 := by
  unfold CursorInv at *
  rw [hx, hy, hn, hr]
  exact h

theorem rowsOk_congr {E E1 : EditorConfig} (hn : E1.numrows = E.numrows) (hr : E1.row = E.row)
    (h : RowsOk E) : RowsOk E1 := by
  unfold RowsOk at *
  rw [hn, hr]
  exact h

theorem new_row_ok (s : List Int) : (new_row s).size = ((new_row s).chars.length : Int) := rfl

theorem append_row_ok (E : EditorConfig) (s : List Int) (h : RowsOk E) :
    RowsOk (editor_append_row E s) := by
  obtain ⟨hn, hr⟩ := h
  have ht : E.row.take E.numrows.toNat = E.row := by
    apply List.take_of_length_le
    omega
  unfold editor_append_row
  constructor
  · simp only [ht, List.length_append, List.length_singleton]
    omega
  · intro r hm
    simp only [ht, List.mem_append, List.mem_singleton] at hm
    rcases hm with hm | hm
    · exact hr r hm
    · rw [hm]
      exact new_row_ok s

theorem append_row_fields (E : EditorConfig) (s : List Int) :
    (editor_append_row E s).cx = E.cx ∧ (editor_append_row E s).cy = E.cy ∧
    (editor_append_row E s).rowoff = E.rowoff ∧
    (editor_append_row E s).coloff = E.coloff ∧
    (editor_append_row E s).screenrows = E.screenrows ∧
    (editor_append_row E s).screencols = E.screencols :=
  ⟨rfl, rfl, rfl, rfl, rfl, rfl⟩

theorem open_fold (lines : List (List Int)) :
    ∀ E : EditorConfig, RowsOk E →
      RowsOk (lines.foldl (fun E line => editor_append_row E (strip_eol line)) E) ∧
      (lines.foldl (fun E line => editor_append_row E (strip_eol line)) E).cx = E.cx ∧
      (lines.foldl (fun E line => editor_append_row E (strip_eol line)) E).cy = E.cy ∧
      (lines.foldl (fun E line => editor_append_row E (strip_eol line)) E).rowoff = E.rowoff ∧
      (lines.foldl (fun E line => editor_append_row E (strip_eol line)) E).coloff = E.coloff ∧
      (lines.foldl (fun E line => editor_append_row E (strip_eol line)) E).screenrows
        = E.screenrows := by
  induction lines with
  | nil => intro E h; exact ⟨h, rfl, rfl, rfl, rfl, rfl⟩
  | cons l ls ih =>
    intro E h
    simp only [List.foldl_cons]
    obtain ⟨a, b, c, d, e, f⟩ := ih (editor_append_row E (strip_eol l)) (append_row_ok E _ h)
    exact ⟨a, b, c, d, e, f⟩

theorem startup_fields (rows cols : Int) (file : Option (List Int × List (List Int))) :
    RowsOk (startup rows cols file) ∧ (startup rows cols file).cx = 0 ∧
    (startup rows cols file).cy = 0 ∧ (startup rows cols file).rowoff = 0 ∧
    (startup rows cols file).coloff = 0 ∧ (startup rows cols file).screenrows = rows - 2 := by
  have h0 : RowsOk (editor_init rows cols) := by
    constructor
    · rfl
    · intro r hr
      simp [editor_init] at hr
  rcases file with _ | ⟨filename, lines⟩
  · exact ⟨h0, rfl, rfl, rfl, rfl, rfl⟩
  · exact open_fold lines { editor_init rows cols with filename := some filename } h0

theorem startup_inv (rows cols : Int) (file : Option (List Int × List (List Int)))
    (hs : 1 ≤ (startup rows cols file).screenrows) : FrameInv (startup rows cols file) := by
  obtain ⟨hr, hx, hy, ho, -, -⟩ := startup_fields rows cols file
  have hn : 0 ≤ (startup rows cols file).numrows := by
    rw [hr.1]
    exact Int.ofNat_nonneg _
  have hsz := rowAt_size_nonneg _ hr (startup rows cols file).cy
  refine ⟨?_, hr, by omega, hs⟩
  unfold CursorInv
  rw [hx, hy] at *
  omega

theorem process_key_inv (c : Int) (S : EditorConfig) (hq : c ≠ CTRL_KEY 113)
    (hinv : CursorInv S) (hr : RowsOk S) (hlo : 0 ≤ S.rowoff) (hhi : S.rowoff ≤ S.numrows)
    (hs : 1 ≤ S.screenrows) :
    ∃ E1, process_key c S = some E1 ∧ CursorInv E1 ∧ SameExceptCursor S E1 := by
  have hw := cursorWeak_of_inv hinv
  have hn : 1 ≤ S.screenrows.toNat := by omega
  by_cases h1 : c = HOME_KEY
  · refine ⟨{ S with cx := 0 }, ?_, ?_, sameExceptCursor_refl S⟩
    · unfold process_key
      rw [if_neg hq, if_pos h1]
    · have hsz := rowAt_size_nonneg S hr S.cy
      obtain ⟨a0, a1, a2, a3⟩ := hinv
      exact ⟨a0, a1, fun hc => ⟨le_refl _, hsz⟩, fun _ => rfl⟩
  by_cases h2 : c = END_KEY
  · refine ⟨if S.cy < S.numrows then { S with cx := (rowAt S.row S.cy).size } else S, ?_, ?_, ?_⟩
    · unfold process_key
      rw [if_neg hq, if_neg h1, if_pos h2]
    · have hsz := rowAt_size_nonneg S hr S.cy
      obtain ⟨a0, a1, a2, a3⟩ := hinv
      unfold CursorInv
      split_ifs <;> (try dsimp only at *) <;> omega
    · split_ifs <;> exact sameExceptCursor_refl S
  by_cases h3 : c = PAGE_UP
  · rw [h3, process_page_up]
    exact ⟨_, rfl, move_times_inv_weak ARROW_UP _ hn _ hr ⟨hlo, hhi, hw.2.2⟩,
      move_times_same ARROW_UP _ { S with cy := S.rowoff }⟩
  by_cases h4 : c = PAGE_DOWN
  · rw [h4, process_page_down]
    exact ⟨_, rfl,
      move_times_inv_weak ARROW_DOWN _ hn _ hr
        ⟨by dsimp only; omega, by dsimp only; omega, hw.2.2⟩,
      move_times_same ARROW_DOWN _ { S with cy := min (S.rowoff + S.screenrows - 1) S.numrows }⟩
  by_cases h5 : c = ARROW_LEFT ∨ c = ARROW_RIGHT ∨ c = ARROW_UP ∨ c = ARROW_DOWN
  · refine ⟨editor_move_cursor c S, ?_, move_cursor_inv c S hr hw, move_cursor_same c S⟩
    unfold process_key
    rw [if_neg hq, if_neg h1, if_neg h2, if_neg (by tauto), if_pos h5]
  · refine ⟨S, ?_, hinv, sameExceptCursor_refl S⟩
    unfold process_key
    rw [if_neg hq, if_neg h1, if_neg h2, if_neg (by tauto), if_neg h5]

theorem frame_inv (c : Int) (E : EditorConfig) (hq : c ≠ CTRL_KEY 113) (h : FrameInv E) :
    ∃ E1, frame c E = some E1 ∧ FrameInv E1 := by
  obtain ⟨hinv, hr, hlo, hs⟩ := h
  obtain ⟨fx, fy, fn, frow, fs, -⟩ := scroll_fields E
  have hS : CursorInv (editor_scroll E) := cursorInv_congr fx fy fn frow hinv
  have hrS : RowsOk (editor_scroll E) := rowsOk_congr fn frow hr
  obtain ⟨o1, o2⟩ := scroll_rowoff_nonneg E hlo hinv.1 hs
  have hhi : (editor_scroll E).rowoff ≤ (editor_scroll E).numrows := le_trans o2 hS.2.1
  obtain ⟨E1, he, hc, hsame⟩ :=
    process_key_inv c (editor_scroll E) hq hS hrS o1 hhi (by rw [fs]; exact hs)
  refine ⟨E1, he, hc, rowsOk_of_same hsame hrS, ?_, ?_⟩
  · rw [hsame.2.1]
    exact o1
  · rw [hsame.2.2.2.1, fs]
    exact hs

theorem run_frames_inv (keys : List Int) :
    ∀ E : EditorConfig, (∀ c ∈ keys, c ≠ CTRL_KEY 113) → FrameInv E →
      ∃ E1, run_frames keys E = some E1 ∧ FrameInv E1 := by
  induction keys with
  | nil => intro E _ h; exact ⟨E, rfl, h⟩
  | cons c cs ih =>
    intro E hk h
    obtain ⟨E1, he, h1⟩ := frame_inv c E (hk c (List.mem_cons_self _ _)) h
    obtain ⟨E2, he2, h2⟩ := ih E1 (fun x hx => hk x (List.mem_cons_of_mem _ hx)) h1
    refine ⟨E2, ?_, h2⟩
    simp only [run_frames, he]
    exact he2

/-- C3: with `screenrows >= 1`, from the state in which `main` enters its
loop (`cx = cy = 0`, `rowoff = coloff = 0`, any loaded rows), every finite
sequence of frames on keys other than Ctrl-Q (each frame is `editor_scroll`
followed by the key dispatch of `editor_process_keypress`) runs to a state,
and that state satisfies the cursor invariant `0 <= cy <= numrows`,
`0 <= cx <= size of row cy` when `cy < numrows`, `cx == 0` when
`cy == numrows`, before and after the next `editor_scroll`. -/
theorem cursor_invariant_reachable (rows cols : Int)
    (file : Option (List Int × List (List Int))) (keys : List Int)
    (hs : 1 ≤ (startup rows cols file).screenrows)
    (hk : ∀ c ∈ keys, c ≠ CTRL_KEY 113) :
    ∃ E : EditorConfig, run_frames keys (startup rows cols file) = some E ∧
      CursorInv E ∧ CursorInv (editor_scroll E) := by
  obtain ⟨E, he, hinv, -, -, -⟩ :=
    run_frames_inv keys (startup rows cols file) hk (startup_inv rows cols file hs)
  obtain ⟨fx, fy, fn, frow, -, -⟩ := scroll_fields E
  exact ⟨E, he, hinv, cursorInv_congr fx fy fn frow hinv⟩

/-! ## The theorems on sample states -/

theorem move_cursor_vertical_witness :
    CursorInv sample_one_row ∧
    (editor_move_cursor ARROW_UP sample_one_row).cy = max (sample_one_row.cy - 1) 0 ∧
    (editor_move_cursor ARROW_DOWN sample_one_row).cy
      = min (sample_one_row.cy + 1) sample_one_row.numrows :=
  ⟨by decide, (move_cursor_vertical sample_one_row (by decide)).1,
    (move_cursor_vertical sample_one_row (by decide)).2.1⟩

theorem move_cursor_horizontal_witness :
    RowsOk sample_one_row ∧ CursorInv sample_one_row ∧ 0 < sample_one_row.cx ∧
    (editor_move_cursor ARROW_LEFT sample_one_row).cy = sample_one_row.cy ∧
    (editor_move_cursor ARROW_LEFT sample_one_row).cx = sample_one_row.cx - 1 :=
  ⟨by decide, by decide, by decide,
    (move_cursor_horizontal sample_one_row (by decide) (by decide)).1 (by decide)⟩

theorem paging_stops_at_boundaries_witness :
    RowsOk last_row_end ∧ 1 ≤ last_row_end.screenrows ∧ 0 ≤ last_row_end.rowoff ∧
    last_row_end.rowoff ≤ last_row_end.numrows ∧ CursorInv last_row_end ∧
    ∃ U D : EditorConfig,
      process_key PAGE_UP last_row_end = some U ∧
      process_key PAGE_DOWN last_row_end = some D ∧
      U.cy = max 0 (last_row_end.rowoff - last_row_end.screenrows) ∧
      D.cy = min last_row_end.numrows
        (last_row_end.rowoff + 2 * last_row_end.screenrows - 1) := by
  refine ⟨by decide, by decide, by decide, by decide, by decide, ?_⟩
  obtain ⟨U, D, hU, hD, hu, hd, -⟩ :=
    paging_stops_at_boundaries last_row_end (by decide) (by decide) (by decide) (by decide)
      (by decide)
  exact ⟨U, D, hU, hD, hu, hd⟩

theorem cursor_invariant_reachable_witness :
    1 ≤ (startup 24 80 (some ([116], [[97, 9, 98, 10], [], [99, 10]]))).screenrows ∧
    (∀ c ∈ [ARROW_DOWN, ARROW_DOWN, END_KEY, PAGE_UP, ARROW_RIGHT], c ≠ CTRL_KEY 113) ∧
    ∃ E : EditorConfig,
      run_frames [ARROW_DOWN, ARROW_DOWN, END_KEY, PAGE_UP, ARROW_RIGHT]
        (startup 24 80 (some ([116], [[97, 9, 98, 10], [], [99, 10]]))) = some E ∧
      CursorInv E ∧ CursorInv (editor_scroll E) :=
  ⟨by decide, by decide,
    cursor_invariant_reachable 24 80 (some ([116], [[97, 9, 98, 10], [], [99, 10]]))
      [ARROW_DOWN, ARROW_DOWN, END_KEY, PAGE_UP, ARROW_RIGHT] (by decide) (by decide)⟩

/-! ## Input handling -/

theorem process_key_same (c : Int) (E : EditorConfig) (hq : c ≠ CTRL_KEY 113) :
    ∃ E1, process_key c E = some E1 ∧ SameExceptCursor E E1 ∧
      (c ≠ HOME_KEY → c ≠ END_KEY → c ≠ PAGE_UP → c ≠ PAGE_DOWN → c ≠ ARROW_LEFT →
        c ≠ ARROW_RIGHT → c ≠ ARROW_UP → c ≠ ARROW_DOWN → E1 = E) := by
  by_cases h1 : c = HOME_KEY
  · refine ⟨{ E with cx := 0 }, ?_, sameExceptCursor_refl E, fun h => absurd h1 h⟩
    unfold process_key
    rw [if_neg hq, if_pos h1]
  by_cases h2 : c = END_KEY
  · refine ⟨if E.cy < E.numrows then { E with cx := (rowAt E.row E.cy).size } else E, ?_, ?_,
      fun _ h => absurd h2 h⟩
    · unfold process_key
      rw [if_neg hq, if_neg h1, if_pos h2]
    · split_ifs <;> exact sameExceptCursor_refl E
  by_cases h3 : c = PAGE_UP
  · rw [h3, process_page_up]
    exact ⟨_, rfl, move_times_same ARROW_UP _ { E with cy := E.rowoff },
      fun _ _ h => absurd rfl h⟩
  by_cases h4 : c = PAGE_DOWN
  · rw [h4, process_page_down]
    exact ⟨_, rfl,
      move_times_same ARROW_DOWN _ { E with cy := min (E.rowoff + E.screenrows - 1) E.numrows },
      fun _ _ _ h => absurd rfl h⟩
  by_cases h5 : c = ARROW_LEFT ∨ c = ARROW_RIGHT ∨ c = ARROW_UP ∨ c = ARROW_DOWN
  · refine ⟨editor_move_cursor c E, ?_, move_cursor_same c E, ?_⟩
    · unfold process_key
      rw [if_neg hq, if_neg h1, if_neg h2, if_neg (by tauto), if_pos h5]
    · intro _ _ _ _ a b c d
      tauto
  · refine ⟨E, ?_, sameExceptCursor_refl E, fun _ _ _ _ _ _ _ _ => rfl⟩
    unfold process_key
    rw [if_neg hq, if_neg h1, if_neg h2, if_neg (by tauto), if_neg h5]

/-- C14: on every decoded key other than Ctrl-Q, `editor_process_keypress`
continues with a state that differs from the old one in `cx` and `cy` at
most: `rx`, `rowoff`, `coloff`, `screenrows`, `screencols`, `numrows`, the
rows (with their `chars`, `size`, `render`, `rsize`), the file name and the
status message are the same; and on a key that is not HOME, END, PAGE_UP,
PAGE_DOWN or an arrow (a printable byte, DEL_KEY, the bare ESC) the state is
unchanged altogether. -/
theorem keypress_changes_cursor_only (c : Int) (E : EditorConfig) (hq : c ≠ CTRL_KEY 113) :
    ∃ E1, process_key c E = some E1 ∧
      E1.rx = E.rx ∧ E1.rowoff = E.rowoff ∧ E1.coloff = E.coloff ∧
      E1.screenrows = E.screenrows ∧ E1.screencols = E.screencols ∧
      E1.numrows = E.numrows ∧ E1.row = E.row ∧ E1.filename = E.filename ∧
      E1.statusmsg = E.statusmsg ∧ E1.statusmsg_time = E.statusmsg_time ∧
      (c ≠ HOME_KEY → c ≠ END_KEY → c ≠ PAGE_UP → c ≠ PAGE_DOWN → c ≠ ARROW_LEFT →
        c ≠ ARROW_RIGHT → c ≠ ARROW_UP → c ≠ ARROW_DOWN → E1.cx = E.cx ∧ E1.cy = E.cy) ∧
      process_key DEL_KEY E = some E ∧ process_key 27 E = some E ∧ process_key 97 E = some E := by
  obtain ⟨E1, he, ⟨a1, a2, a3, a4, a5, a6, a7, a8, a9, a10⟩, hrest⟩ := process_key_same c E hq
  refine ⟨E1, he, a1, a2, a3, a4, a5, a6, a7, a8, a9, a10, ?_, ?_, ?_, ?_⟩
  · intro b1 b2 b3 b4 b5 b6 b7 b8
    rw [hrest b1 b2 b3 b4 b5 b6 b7 b8]
    exact ⟨rfl, rfl⟩
  · obtain ⟨E2, he2, -, h2⟩ := process_key_same DEL_KEY E (by decide)
    rw [he2, h2 (by decide) (by decide) (by decide) (by decide) (by decide) (by decide)
      (by decide) (by decide)]
  · obtain ⟨E2, he2, -, h2⟩ := process_key_same 27 E (by decide)
    rw [he2, h2 (by decide) (by decide) (by decide) (by decide) (by decide) (by decide)
      (by decide) (by decide)]
  · obtain ⟨E2, he2, -, h2⟩ := process_key_same 97 E (by decide)
    rw [he2, h2 (by decide) (by decide) (by decide) (by decide) (by decide) (by decide)
      (by decide) (by decide)]

theorem keypress_changes_cursor_only_witness :
    ARROW_DOWN ≠ CTRL_KEY 113 ∧
    ∃ E1, process_key ARROW_DOWN sample_one_row = some E1 ∧ E1.rx = sample_one_row.rx ∧
      E1.rowoff = sample_one_row.rowoff ∧ E1.coloff = sample_one_row.coloff :=
  ⟨by decide, by
    obtain ⟨E1, he, a1, a2, a3, -⟩ :=
      keypress_changes_cursor_only ARROW_DOWN sample_one_row (by decide)
    exact ⟨E1, he, a1, a2, a3⟩⟩

/-- C15: with `screenrows >= 1` and `screencols >= 1`, `editor_scroll` leaves
`rowoff` unchanged when `rowoff <= cy < rowoff + screenrows`, sets it to `cy`
when `cy < rowoff` and to `cy - screenrows + 1` when
`cy >= rowoff + screenrows`; likewise, with `rx` the column it has just
recomputed, it leaves `coloff` unchanged when
`coloff <= rx < coloff + screencols`, sets it to `rx` when `rx < coloff` and
to `rx - screencols + 1` when `rx >= coloff + screencols`; it never changes
`cx` or `cy`. -/
theorem scroll_minimal (E : EditorConfig) (hr : 1 ≤ E.screenrows) (hc : 1 ≤ E.screencols) :
    (E.rowoff ≤ E.cy → E.cy < E.rowoff + E.screenrows → (editor_scroll E).rowoff = E.rowoff) ∧
    (E.cy < E.rowoff → (editor_scroll E).rowoff = E.cy) ∧
    (E.cy ≥ E.rowoff + E.screenrows → (editor_scroll E).rowoff = E.cy - E.screenrows + 1) ∧
    (E.coloff ≤ (editor_scroll E).rx → (editor_scroll E).rx < E.coloff + E.screencols →
      (editor_scroll E).coloff = E.coloff) ∧
    ((editor_scroll E).rx < E.coloff → (editor_scroll E).coloff = (editor_scroll E).rx) ∧
    ((editor_scroll E).rx ≥ E.coloff + E.screencols →
      (editor_scroll E).coloff = (editor_scroll E).rx - E.screencols + 1) ∧
    (editor_scroll E).cx = E.cx ∧ (editor_scroll E).cy = E.cy := by
  simp only [editor_scroll]
  split_ifs <;> (try dsimp only at *) <;>
    refine ⟨?_, ?_, ?_, ?_, ?_, ?_, rfl, rfl⟩ <;> intros <;> omega

theorem scroll_minimal_witness :
    1 ≤ sample_one_row.screenrows ∧ 1 ≤ sample_one_row.screencols ∧
    sample_one_row.cy < sample_one_row.rowoff ∧
    (editor_scroll sample_one_row).rowoff = sample_one_row.cy :=
  ⟨by decide, by decide, by decide,
    (scroll_minimal sample_one_row (by decide) (by decide)).2.1 (by decide)⟩

/-! ## Monotonicity of the column conversion -/

theorem cx_to_rx_step_bounds (rx c : Int) (h : 0 ≤ rx) :
    rx + 1 ≤ cx_to_rx_step rx c ∧ cx_to_rx_step rx c ≤ rx + 1 + (if c = 9 then 7 else 0) := by
  unfold cx_to_rx_step
  rw [PICO_TAB_STOP, Int.tmod_eq_emod h (by decide)]
  split_ifs <;> omega

/-- The value of `rx` after `n` iterations of the loop of
`editor_row_cx_to_rx`. -/
theorem cx_to_rx_succ (row : Row) (n : Nat) :
    editor_row_cx_to_rx row ((n : Int) + 1)
      = cx_to_rx_step (editor_row_cx_to_rx row (n : Int)) (charAt row.chars (n : Int)) := by
  have h1 : ((n : Int) + 1).toNat = n + 1 := by omega
  simp only [editor_row_cx_to_rx, h1, Int.toNat_ofNat, List.range_succ, List.foldl_append,
    List.foldl_cons, List.foldl_nil, Int.ofNat_eq_coe]

theorem cx_to_rx_ge (row : Row) (n : Nat) : (n : Int) ≤ editor_row_cx_to_rx row (n : Int) := by
  induction n with
  | zero => simp [editor_row_cx_to_rx]
  | succ n ih =>
    have h := (cx_to_rx_step_bounds (editor_row_cx_to_rx row (n : Int))
      (charAt row.chars (n : Int)) (le_trans (Int.ofNat_nonneg n) ih)).1
    rw [Nat.cast_succ, cx_to_rx_succ]
    omega

theorem cx_to_rx_mono_nat (row : Row) (n m : Nat) (h : n ≤ m) :
    editor_row_cx_to_rx row (n : Int) ≤ editor_row_cx_to_rx row (m : Int) := by
  induction m with
  | zero =>
    have : n = 0 := by omega
    rw [this]
  | succ m ih =>
    by_cases hm : n = m + 1
    · rw [hm]
    · have h1 := ih (by omega)
      have h2 := (cx_to_rx_step_bounds (editor_row_cx_to_rx row (m : Int))
        (charAt row.chars (m : Int)) (le_trans (Int.ofNat_nonneg m) (cx_to_rx_ge row m))).1
      rw [Nat.cast_succ, cx_to_rx_succ]
      omega

/-- C16: for every row and all `cx1`, `cx2` with
`0 <= cx1 <= cx2 <= row.size`, the rendered column does not decrease:
`editor_row_cx_to_rx(row, cx1) <= editor_row_cx_to_rx(row, cx2)`. -/
theorem cx_to_rx_monotone (row : Row) (cx1 cx2 : Int) (h0 : 0 ≤ cx1) (h12 : cx1 ≤ cx2)
    (_h2 : cx2 ≤ row.size) :
    editor_row_cx_to_rx row cx1 ≤ editor_row_cx_to_rx row cx2 := by
  have e1 : cx1 = ((cx1.toNat : Nat) : Int) := by omega
  have e2 : cx2 = ((cx2.toNat : Nat) : Int) := by omega
  rw [e1, e2]
  exact cx_to_rx_mono_nat row _ _ (by omega)

theorem cx_to_rx_monotone_witness :
    (0 : Int) ≤ 1 ∧ (1 : Int) ≤ 3 ∧ 3 ≤ (new_row [97, 9, 98]).size ∧
    editor_row_cx_to_rx (new_row [97, 9, 98]) 1 ≤ editor_row_cx_to_rx (new_row [97, 9, 98]) 3 :=
  ⟨by decide, by decide, by decide,
    cx_to_rx_monotone (new_row [97, 9, 98]) 1 3 (by decide) (by decide) (by decide)⟩

theorem scroll_rx_ge_cx_aux (E : EditorConfig) (h : CursorInv E) :
    E.cx ≤ (editor_scroll E).rx := by
  obtain ⟨h0, h1, h2, h3⟩ := h
  rw [scroll_rx]
  split_ifs with hc
  · have hx := (h2 hc).1
    have e1 : E.cx = ((E.cx.toNat : Nat) : Int) := by omega
    have := cx_to_rx_ge (rowAt E.row E.cy) E.cx.toNat
    rw [← e1] at this
    exact this
  · have : E.cy = E.numrows := by omega
    rw [h3 this]

/-- C17: for every state that satisfies the cursor invariant, after
`editor_scroll` the rendered column is not left of the logical one:
`rx >= cx`. -/
theorem scroll_rx_ge_cx (E : EditorConfig) (h : CursorInv E) :
    (editor_scroll E).rx ≥ (editor_scroll E).cx := by
  rw [(scroll_fields E).1]
  exact scroll_rx_ge_cx_aux E h

theorem scroll_rx_ge_cx_witness :
    CursorInv sample_one_row ∧
    (editor_scroll sample_one_row).rx ≥ (editor_scroll sample_one_row).cx :=
  ⟨by decide, scroll_rx_ge_cx sample_one_row (by decide)⟩

/-! ## Paging on every geometry -/

theorem scroll_cy_le_bottom (E : EditorConfig) :
    (editor_scroll E).cy ≤ (editor_scroll E).rowoff + (editor_scroll E).screenrows - 1 := by
  simp only [editor_scroll]
  split_ifs <;> (try dsimp only at *) <;> omega

theorem page_down_keeps_cy_in_file (E : EditorConfig) (_hs : 0 ≤ E.screenrows)
    (hinv : CursorInv E) :
    ∃ D : EditorConfig, process_key PAGE_DOWN (editor_scroll E) = some D ∧
      0 ≤ D.cy ∧ D.cy ≤ D.numrows := by
  obtain ⟨-, fy, fn, -, fs, -⟩ := scroll_fields E
  have hb := scroll_cy_le_bottom E
  have hcy0 : 0 ≤ (editor_scroll E).cy := by rw [fy]; exact hinv.1
  have hn0 : 0 ≤ (editor_scroll E).numrows := by
    rw [fn]
    exact le_trans hinv.1 hinv.2.1
  have sD := move_times_same ARROW_DOWN (editor_scroll E).screenrows.toNat
    { editor_scroll E with
      cy := min ((editor_scroll E).rowoff + (editor_scroll E).screenrows - 1)
        (editor_scroll E).numrows }
  have cD := move_times_down_cy (editor_scroll E).screenrows.toNat
    { editor_scroll E with
      cy := min ((editor_scroll E).rowoff + (editor_scroll E).screenrows - 1)
        (editor_scroll E).numrows } (by dsimp only; omega)
  refine ⟨_, process_page_down _, ?_, ?_⟩
  · rw [cD]; dsimp only; omega
  · rw [cD, sD.2.2.2.2.2.1]; dsimp only; omega

/-- C18, the code at the failing input: on a terminal of two lines
(`screenrows == 0`) with a file of three lines, three presses of PAGE_UP
lead to a state that satisfies the cursor invariant (`cy == 3 == numrows`).
After `editor_scroll` (which sets `rowoff` to 4) a fourth PAGE_UP sets `cy`
to `rowoff` and replays no move, leaving `cy == 4 > numrows == 3`, with
`cx == 0`, so that the next ARROW_LEFT reads `E.row[cy - 1]` beyond the three
rows.  PAGE_DOWN in the same state clamps `cy` and stays in the file. -/
theorem page_up_past_last_row :
    (startup 2 80 (some ([116], [[97, 10], [98, 10], [99, 10]]))).screenrows = 0 ∧
    run_frames [PAGE_UP, PAGE_UP, PAGE_UP]
      (startup 2 80 (some ([116], [[97, 10], [98, 10], [99, 10]])))
      = some two_line_terminal_paged ∧
    0 ≤ two_line_terminal_paged.screenrows ∧ CursorInv two_line_terminal_paged ∧
    CursorInv (editor_scroll two_line_terminal_paged) ∧
    (editor_scroll two_line_terminal_paged).rowoff = 4 ∧
    Option.map (fun E => (E.cx, E.cy, E.numrows, (E.row.length : Int)))
      (process_key PAGE_UP (editor_scroll two_line_terminal_paged)) = some (0, 4, 3, 3) ∧
    ¬ (∃ U, process_key PAGE_UP (editor_scroll two_line_terminal_paged) = some U ∧
        0 ≤ U.cy ∧ U.cy ≤ U.numrows) ∧
    Option.map (fun E => E.cy)
      (process_key PAGE_DOWN (editor_scroll two_line_terminal_paged)) = some 3 := by
  refine ⟨by decide, by decide, by decide, by decide, by decide, by decide, by decide, ?_,
    by decide⟩
  rintro ⟨U, hU, -, h1⟩
  have h2 : Option.map (fun E => (E.cy, E.numrows))
      (process_key PAGE_UP (editor_scroll two_line_terminal_paged)) = some (4, 3) := by decide
  rw [hU] at h2
  simp only [Option.map_some', Option.some.injEq, Prod.mk.injEq] at h2
  omega

/-! ## The render buffer -/

theorem new_row_eq (s : List Int) : new_row s = editor_update_row (raw_row s) := rfl

theorem render_after_eq (s : List Int) (k : Nat) (hk : k ≤ s.length) :
    render_after (raw_row s) k = (s.take k).foldl update_row_step [] :=
  foldl_range_charAt update_row_step s [] k hk

theorem render_after_size (s : List Int) :
    render_after (raw_row s) s.length = (new_row s).render := by
  rw [render_after_eq s s.length (le_refl _), List.take_length, new_row_render]

theorem foldl_cx_bounds (s : List Int) :
    ∀ rx : Int, 0 ≤ rx →
      rx + (s.length : Int) ≤ s.foldl cx_to_rx_step rx ∧
      s.foldl cx_to_rx_step rx ≤ rx + (s.length : Int) + 7 * (s.count 9 : Int) := by
  induction s with
  | nil => intro rx _; simp
  | cons c cs ih =>
    intro rx h
    obtain ⟨b1, b2⟩ := cx_to_rx_step_bounds rx c h
    obtain ⟨i1, i2⟩ := ih (cx_to_rx_step rx c) (by omega)
    simp only [List.foldl_cons, List.length_cons, List.count_cons, Nat.cast_add, Nat.cast_one]
    by_cases hc : c = 9
    · simp only [hc, if_true, beq_self_eq_true, Nat.cast_one] at *
      omega
    · have hb : (c == 9) = false := by simpa using hc
      simp only [hc, hb, if_false, Nat.cast_zero, Bool.false_eq_true, add_zero] at *
      omega

theorem foldl_count_tabs (s : List Int) :
    ∀ t : Int, s.foldl (fun (tabs : Int) (c : Int) => if c = 9 then tabs + 1 else tabs) t
      = t + (s.count 9 : Int) := by
  induction s with
  | nil => intro t; simp
  | cons c cs ih =>
    intro t
    simp only [List.foldl_cons, List.count_cons, Nat.cast_add]
    rw [ih]
    by_cases hc : c = 9
    · simp [hc]
      omega
    · have hb : (c == 9) = false := by simpa using hc
      simp [hc, hb]

theorem count_tabs_eq (s : List Int) : count_tabs (raw_row s) = (s.count 9 : Int) := by
  have h := foldl_range_charAt (fun (tabs : Int) (c : Int) => if c = 9 then tabs + 1 else tabs)
    s 0 s.length (le_refl _)
  simp only [count_tabs, raw_row, Int.toNat_ofNat]
  rw [h, List.take_length, foldl_count_tabs]
  simp

theorem render_after_length (s : List Int) (k : Nat) (hk : k ≤ s.length) :
    (k : Int) ≤ ((render_after (raw_row s) k).length : Int) ∧
    ((render_after (raw_row s) k).length : Int) ≤ (k : Int) + 7 * ((s.take k).count 9 : Int) := by
  rw [render_after_eq s k hk, foldl_step_length]
  have h := foldl_cx_bounds (s.take k) 0 (le_refl _)
  have hl : (s.take k).length = k := by simp [hk]
  simp only [List.length_nil, Nat.cast_zero]
  rw [hl] at h
  omega

theorem render_after_prefix (s : List Int) (k : Nat) (hk : k ≤ s.length) :
    (new_row s).render
      = render_after (raw_row s) k
        ++ tab_expand_from (render_after (raw_row s) k).length (s.drop k) := by
  rw [render_after_eq s k hk, new_row_render]
  conv_lhs => rw [← List.take_append_drop k s, List.foldl_append, foldl_step_eq]

theorem int32_of_isCInt (x : Int) (h : IsCInt x) : int32 x = x := by
  obtain ⟨h1, h2⟩ := h
  unfold int32
  omega

theorem new_row_rsize_bounds (s : List Int) :
    (new_row s).size ≤ (new_row s).rsize ∧
    (new_row s).rsize ≤ (new_row s).size + 7 * (s.count 9 : Int) := by
  have hfin := render_after_length s s.length (le_refl _)
  rw [render_after_size, List.take_length] at hfin
  rw [new_row_size, new_row_rsize]
  exact hfin

theorem render_alloc_of_isCInt (s : List Int)
    (h : IsCInt ((s.length : Int) + 7 * (s.count 9 : Int) + 1)) :
    render_alloc (raw_row s) = (s.length : Int) + 7 * (s.count 9 : Int) + 1 := by
  obtain ⟨h1, h2⟩ := h
  have hc : count_tabs (raw_row s) * (PICO_TAB_STOP - 1) = 7 * (s.count 9 : Int) := by
    rw [count_tabs_eq, PICO_TAB_STOP]
    omega
  have hsz : (raw_row s).size = (s.length : Int) := rfl
  have e1 : int32 (7 * (s.count 9 : Int)) = 7 * (s.count 9 : Int) :=
    int32_of_isCInt _ ⟨by omega, by omega⟩
  have e2 : int32 ((s.length : Int) + 7 * (s.count 9 : Int))
      = (s.length : Int) + 7 * (s.count 9 : Int) :=
    int32_of_isCInt _ ⟨by omega, by omega⟩
  have e3 : int32 ((s.length : Int) + 7 * (s.count 9 : Int) + 1)
      = (s.length : Int) + 7 * (s.count 9 : Int) + 1 :=
    int32_of_isCInt _ ⟨by omega, by omega⟩
  unfold render_alloc
  rw [hc, hsz, e1, e2, e3]

/-- Where the `int` arithmetic of the allocation size does not overflow
(`size + 7*t + 1` is a value of `int`), the render buffer is large enough:
after any number `k` of iterations of the copying loop the bytes written are
an initial part of the final render and `idx` is at most
`k + 7*(tabs among the first k bytes)`; `size <= rsize <= size + 7*t`, and
`rsize`, the index of the terminating NUL, is below the allocated size. -/
theorem render_fits_without_overflow (s : List Int)
    (h : IsCInt ((s.length : Int) + 7 * (s.count 9 : Int) + 1)) :
    count_tabs (raw_row s) = (s.count 9 : Int) ∧
    render_alloc (raw_row s) = (s.length : Int) + 7 * (s.count 9 : Int) + 1 ∧
    (∀ k : Nat, k ≤ s.length →
      render_after (raw_row s) k <+: (new_row s).render ∧
      ((render_after (raw_row s) k).length : Int) ≤ (new_row s).rsize ∧
      ((render_after (raw_row s) k).length : Int)
        ≤ (k : Int) + 7 * ((s.take k).count 9 : Int)) ∧
    (new_row s).size ≤ (new_row s).rsize ∧
    (new_row s).rsize ≤ (new_row s).size + 7 * (s.count 9 : Int) ∧
    (new_row s).rsize < render_alloc (raw_row s) := by
  have hb := new_row_rsize_bounds s
  have hal := render_alloc_of_isCInt s h
  refine ⟨count_tabs_eq s, hal, ?_, hb.1, hb.2, ?_⟩
  · intro k hk
    have hp := render_after_prefix s k hk
    have hlen := render_after_length s k hk
    refine ⟨⟨_, hp.symm⟩, ?_, hlen.2⟩
    rw [new_row_rsize, hp, List.length_append]
    omega
  · rw [hal]
    have := hb.2
    rw [new_row_size] at this
    omega

/-- C20, the code at the failing input: for a line of 2^28 tab characters
`size` is 268435456 and the first loop counts 268435456 tabs; `tabs * 7` is
still a value of `int`, but `size + tabs * 7 + 1` is 2^31 + 1, which is not:
the `int` expression handed to `malloc` overflows and is -2147483647 in the
compiled program, so no render buffer of `size + 7*t + 1` bytes exists,
while the copying loop writes 8 bytes in its first iteration and at least
268435456 bytes in all. -/
theorem render_alloc_overflows :
    (raw_row tabs_line).size = 268435456 ∧
    count_tabs (raw_row tabs_line) = 268435456 ∧
    IsCInt (raw_row tabs_line).size ∧
    IsCInt (count_tabs (raw_row tabs_line) * (PICO_TAB_STOP - 1)) ∧
    ¬ IsCInt ((raw_row tabs_line).size + count_tabs (raw_row tabs_line) * (PICO_TAB_STOP - 1)
        + 1) ∧
    render_alloc (raw_row tabs_line) = -2147483647 ∧
    render_after (raw_row tabs_line) 1 = [32, 32, 32, 32, 32, 32, 32, 32] ∧
    268435456 ≤ (new_row tabs_line).rsize ∧
    ¬ ((new_row tabs_line).rsize < render_alloc (raw_row tabs_line)) := by
  have hlen : tabs_line.length = 268435456 := List.length_replicate _ _
  have hsz : (raw_row tabs_line).size = 268435456 := by
    show ((tabs_line.length : Nat) : Int) = 268435456
    rw [hlen]
    rfl
  have hct : count_tabs (raw_row tabs_line) = 268435456 := by
    rw [count_tabs_eq, tabs_line, List.count_replicate_self]
    rfl
  have hal : render_alloc (raw_row tabs_line) = -2147483647 := by
    unfold render_alloc
    rw [hct, hsz, PICO_TAB_STOP]
    decide
  have hb := (new_row_rsize_bounds tabs_line).1
  rw [new_row_size, hlen] at hb
  have h1 : render_after (raw_row tabs_line) 1 = [32, 32, 32, 32, 32, 32, 32, 32] := by
    have hk : (1 : Nat) ≤ tabs_line.length := by rw [hlen]; decide
    rw [render_after_eq tabs_line 1 hk]
    have ht : tabs_line.take 1 = [9] := by
      rw [tabs_line, List.take_replicate]
      rfl
    rw [ht]
    simp only [List.foldl_cons, List.foldl_nil, update_row_step_eq]
    decide
  refine ⟨hsz, hct, ?_, ?_, ?_, hal, h1, hb, ?_⟩
  · rw [hsz]; decide
  · rw [hct, PICO_TAB_STOP]; decide
  · rw [hsz, hct, PICO_TAB_STOP]; decide
  · rw [hal]
    have : (268435456 : Int) = ((268435456 : Nat) : Int) := rfl
    omega

theorem tab_expand_from_cons (r : Nat) (c : Int) (cs : List Int) :
    tab_expand_from r (c :: cs)
      = tab_expand_from r [c] ++ tab_expand_from (r + (tab_expand_from r [c]).length) cs := by
  by_cases hc : c = 9
  · simp [tab_expand_from, hc]
  · simp [tab_expand_from, hc]

theorem cx_to_rx_new_row (s : List Int) (k : Nat) (hk : k ≤ s.length) :
    editor_row_cx_to_rx (new_row s) (k : Int) = ((render_after (raw_row s) k).length : Int) := by
  rw [cx_to_rx_eq_foldl (new_row s) k (by rw [new_row_chars]; exact hk), new_row_chars,
    render_after_eq s k hk, foldl_step_length]
  rfl

theorem render_after_succ (s : List Int) (k : Nat) :
    render_after (raw_row s) (k + 1)
      = render_after (raw_row s) k
        ++ tab_expand_from (render_after (raw_row s) k).length [s.getD k 0] := by
  have h1 : render_after (raw_row s) (k + 1)
      = update_row_step (render_after (raw_row s) k) (charAt s (k : Int)) := by
    simp only [render_after, List.range_succ, List.foldl_append, List.foldl_cons,
      List.foldl_nil, raw_row, Int.ofNat_eq_coe]
  rw [h1, update_row_step_eq, charAt_natCast]

/-- C19: on the row built by `editor_update_row` from a content `s`, for
every `cx` with `0 <= cx < size`, the rendered bytes at the indices from
`editor_row_cx_to_rx(row, cx)` up to but excluding
`editor_row_cx_to_rx(row, cx + 1)` are the rendering of `chars[cx]`: the byte
`chars[cx]` alone when it is not a tab, and between 1 and 8 spaces, nothing
else, when it is a tab; both columns are inside the render. -/
theorem cursor_column_designates (s : List Int) (cx : Int) (h0 : 0 ≤ cx)
    (h1 : cx < (new_row s).size) :
    editor_row_cx_to_rx (new_row s) cx < editor_row_cx_to_rx (new_row s) (cx + 1) ∧
    editor_row_cx_to_rx (new_row s) (cx + 1) ≤ (new_row s).rsize ∧
    ((new_row s).render.drop (editor_row_cx_to_rx (new_row s) cx).toNat).take
        (editor_row_cx_to_rx (new_row s) (cx + 1) - editor_row_cx_to_rx (new_row s) cx).toNat
      = (if charAt (new_row s).chars cx = 9 then
          List.replicate
            (editor_row_cx_to_rx (new_row s) (cx + 1)
              - editor_row_cx_to_rx (new_row s) cx).toNat 32
         else [charAt (new_row s).chars cx]) ∧
    (charAt (new_row s).chars cx = 9 →
      editor_row_cx_to_rx (new_row s) (cx + 1) - editor_row_cx_to_rx (new_row s) cx ≤ 8) ∧
    (charAt (new_row s).chars cx ≠ 9 →
      editor_row_cx_to_rx (new_row s) (cx + 1) - editor_row_cx_to_rx (new_row s) cx = 1) := by
  rw [new_row_size] at h1
  obtain ⟨k, rfl⟩ : ∃ k : Nat, cx = (k : Int) := ⟨cx.toNat, by omega⟩
  have hk : k < s.length := by omega
  have e1 : ((k : Int) + 1) = ((k + 1 : Nat) : Int) := by omega
  rw [new_row_chars, charAt_natCast, e1, cx_to_rx_new_row s k (le_of_lt hk),
    cx_to_rx_new_row s (k + 1) hk]
  have hs := render_after_succ s k
  have hp := render_after_prefix s (k + 1) hk
  have hr : (new_row s).rsize = ((new_row s).render.length : Int) := new_row_rsize s
  generalize render_after (raw_row s) k = R at hs hp ⊢
  generalize s.getD k 0 = c at hs ⊢
  have hpiece : tab_expand_from R.length [c]
      = if c = 9 then List.replicate (8 - R.length % 8) 32 else [c] := by
    by_cases hc : c = 9
    · simp [tab_expand_from, hc]
    · simp [tab_expand_from, hc]
  rw [hs] at hp
  rw [hs, hr, hp]
  simp only [List.length_append, Int.toNat_ofNat, Nat.cast_add]
  have hd : ((R.length : Int) + ((tab_expand_from R.length [c]).length : Int)
      - (R.length : Int)).toNat = (tab_expand_from R.length [c]).length := by omega
  rw [hd, List.append_assoc, List.drop_left, List.take_left]
  rw [hpiece]
  by_cases hc : c = 9
  · simp only [hc, if_true, List.length_replicate]
    refine ⟨by omega, by omega, trivial, fun _ => by omega, fun h => absurd rfl h⟩
  · simp only [hc, if_false, List.length_singleton]
    refine ⟨by omega, by omega, trivial, fun h => absurd h (by simp), fun _ => by omega⟩

theorem cursor_column_designates_witness :
    (0 : Int) ≤ 1 ∧ 1 < (new_row [97, 9, 98]).size ∧
    editor_row_cx_to_rx (new_row [97, 9, 98]) 1
      < editor_row_cx_to_rx (new_row [97, 9, 98]) (1 + 1) :=
  ⟨by decide, by decide, (cursor_column_designates [97, 9, 98] 1 (by decide) (by decide)).1⟩

/-! ## Drawing -/

theorem read_bytes_eq_getD (buf : List Int) (start : Nat) (n : Nat) :
    read_bytes buf (start : Int) (n : Int)
      = (List.range n).map (fun (j : Nat) => buf.getD (start + j) 0) := by
  simp only [read_bytes, Int.toNat_ofNat]
  apply List.map_congr_left
  intro j _
  have e : (start : Int) + Int.ofNat j = ((start + j : Nat) : Int) := by simp
  rw [e, charAt_natCast]

theorem range_map_getD (l : List Int) (n : Nat) (h : n ≤ l.length) :
    (List.range n).map (fun (j : Nat) => l.getD j 0) = l.take n := by
  induction n with
  | zero => simp
  | succ n ih =>
    have hlt : n < l.length := h
    rw [List.range_succ, List.map_append, ih (Nat.le_of_lt hlt), List.take_succ]
    simp [List.getD_eq_getElem _ _ hlt, List.getElem?_eq_getElem hlt]

theorem read_bytes_slice (buf : List Int) (start n : Nat) (h : start + n ≤ buf.length) :
    read_bytes buf (start : Int) (n : Int) = (buf.drop start).take n := by
  rw [read_bytes_eq_getD, ← range_map_getD (buf.drop start) n (by simp; omega)]
  apply List.map_congr_left
  intro j hj
  have hj1 : j < n := List.mem_range.mp hj
  have h1 : start + j < buf.length := by omega
  have h2 : j < (buf.drop start).length := by simp; omega
  rw [List.getD_eq_getElem _ _ h1, List.getD_eq_getElem _ _ h2, List.getElem_drop]

theorem ab_append_lit (ab lit : List Int) :
    ab_append ab lit 0 (lit.length : Int) = ab ++ lit := by
  have h := read_bytes_slice lit 0 lit.length (by omega)
  simp only [Nat.cast_zero, List.drop_zero, List.take_length] at h
  rw [ab_append, h]

theorem ab_append_tilde (ab : List Int) : ab_append ab [126] 0 1 = ab ++ [126] :=
  ab_append_lit ab [126]

theorem ab_append_clear (ab : List Int) : ab_append ab [27, 91, 75] 0 3 = ab ++ [27, 91, 75] :=
  ab_append_lit ab [27, 91, 75]

theorem ab_append_crlf (ab : List Int) : ab_append ab [13, 10] 0 2 = ab ++ [13, 10] :=
  ab_append_lit ab [13, 10]

theorem draw_row_past_end (ab : List Int) (E : EditorConfig) (y : Int) (hn : 0 < E.numrows)
    (hf : y + E.rowoff ≥ E.numrows) :
    draw_row ab E y
      = ab ++ (if y + E.rowoff = E.screenrows then [126] else []) ++ [27, 91, 75, 13, 10] := by
  have hn0 : ¬ E.numrows = 0 := by omega
  simp only [draw_row, if_pos hf, hn0, false_and, false_or, if_false, ab_append_clear,
    ab_append_crlf, ab_append_tilde]
  split_ifs <;> simp

/-- C11, the code at the failing input: a file of one line on a terminal
with one text line (`numrows == screenrows == 1`), cursor moved below the
last row.  The state satisfies the cursor invariant, `editor_scroll` sets
`rowoff` to 1, so the only screen line shows file row 1, which is past the
end; `editor_draw_rows` emits the filler `~` (126) on it before the
clear-to-end sequence and CR LF. -/
theorem tilde_past_end_of_file :
    run_frames [ARROW_DOWN] (startup 3 80 (some ([116], [[97, 10]]))) = some past_last_row ∧
    0 < past_last_row.numrows ∧ 1 ≤ past_last_row.screenrows ∧ CursorInv past_last_row ∧
    CursorInv (editor_scroll past_last_row) ∧
    (editor_scroll past_last_row).rowoff = 1 ∧
    0 + (editor_scroll past_last_row).rowoff ≥ (editor_scroll past_last_row).numrows ∧
    draw_row [] (editor_scroll past_last_row) 0 = [126, 27, 91, 75, 13, 10] ∧
    editor_draw_rows [] (editor_scroll past_last_row) = [126, 27, 91, 75, 13, 10] := by
  decide

theorem window_size_cols_pos (ws_row ws_col : Nat) (position : Option (Int × Int))
    (h : ws_col ≠ 0) :
    get_window_size (some (ws_row, ws_col)) position = some ((ws_row : Int), (ws_col : Int)) ∧
    (0 : Int) < (ws_col : Int) := by
  simp only [get_window_size, if_neg h]
  exact ⟨trivial, by omega⟩

theorem append_row_render (E : EditorConfig) (s : List Int) (h : RowsOk E)
    (hr : RenderOk E) :
    RenderOk (editor_append_row E s) ∧ (editor_append_row E s).screencols = E.screencols := by
  have ht : E.row.take E.numrows.toNat = E.row := by
    apply List.take_of_length_le
    have := h.1
    omega
  refine ⟨?_, rfl⟩
  intro r hm
  simp only [editor_append_row, ht, List.mem_append, List.mem_singleton] at hm
  rcases hm with hm | hm
  · exact hr r hm
  · rw [hm]
    exact new_row_rsize s

theorem open_fold_render (lines : List (List Int)) :
    ∀ E : EditorConfig, RowsOk E → RenderOk E →
      RenderOk (lines.foldl (fun E line => editor_append_row E (strip_eol line)) E) ∧
      (lines.foldl (fun E line => editor_append_row E (strip_eol line)) E).screencols
        = E.screencols := by
  induction lines with
  | nil => intro E _ h; exact ⟨h, rfl⟩
  | cons l ls ih =>
    intro E h hr
    simp only [List.foldl_cons]
    obtain ⟨a, b⟩ := ih (editor_append_row E (strip_eol l)) (append_row_ok E _ h)
      (append_row_render E _ h hr).1
    exact ⟨a, b⟩

theorem startup_render (rows cols : Int) (file : Option (List Int × List (List Int))) :
    RenderOk (startup rows cols file) ∧ (startup rows cols file).screencols = cols := by
  have h0 : RowsOk (editor_init rows cols) := by
    constructor
    · rfl
    · intro r hr
      simp [editor_init] at hr
  have h1 : RenderOk (editor_init rows cols) := by
    intro r hr
    simp [editor_init] at hr
  rcases file with _ | ⟨filename, lines⟩
  · exact ⟨h1, rfl⟩
  · exact open_fold_render lines { editor_init rows cols with filename := some filename } h0 h1

theorem frame_fixed (c : Int) (E E1 : EditorConfig) (h : frame c E = some E1) :
    E1.row = E.row ∧ E1.numrows = E.numrows ∧ E1.screencols = E.screencols ∧
    E1.screenrows = E.screenrows := by
  obtain ⟨-, -, fn, frow, fs, fc⟩ := scroll_fields E
  by_cases hq : c = CTRL_KEY 113
  · simp [frame, process_key, hq] at h
  · obtain ⟨E2, he, hsame, -⟩ := process_key_same c (editor_scroll E) hq
    unfold frame at h
    rw [he] at h
    cases h
    obtain ⟨-, -, -, a4, a5, a6, a7, -⟩ := hsame
    exact ⟨a7.trans frow, a6.trans fn, a5.trans fc, a4.trans fs⟩

theorem run_frames_fixed (keys : List Int) :
    ∀ E E1 : EditorConfig, run_frames keys E = some E1 →
      E1.row = E.row ∧ E1.numrows = E.numrows ∧ E1.screencols = E.screencols ∧
      E1.screenrows = E.screenrows := by
  induction keys with
  | nil =>
    intro E E1 h
    simp only [run_frames, Option.some.injEq] at h
    rw [← h]
    exact ⟨rfl, rfl, rfl, rfl⟩
  | cons c cs ih =>
    intro E E1 h
    simp only [run_frames] at h
    cases hf : frame c E with
    | none => rw [hf] at h; cases h
    | some E2 =>
      rw [hf] at h
      obtain ⟨a1, a2, a3, a4⟩ := frame_fixed c E E2 hf
      obtain ⟨b1, b2, b3, b4⟩ := ih E2 E1 h
      exact ⟨b1.trans a1, b2.trans a2, b3.trans a3, b4.trans a4⟩

/-- Every state in which the program draws has well-formed rows, and its
`screencols` is the width `cols` that `get_window_size` stored: the state
after `editor_scroll` in any frame of any run of `main`. -/
theorem reachable_draw_ready (rows cols : Int) (file : Option (List Int × List (List Int)))
    (keys : List Int) (E : EditorConfig)
    (h : run_frames keys (startup rows cols file) = some E) :
    RowsOk (editor_scroll E) ∧ RenderOk (editor_scroll E) ∧
    (editor_scroll E).screencols = cols := by
  obtain ⟨a1, a2, a3, -⟩ := run_frames_fixed keys _ E h
  obtain ⟨-, -, fn, frow, -, fc⟩ := scroll_fields E
  have hrows := (startup_fields rows cols file).1
  obtain ⟨hrender, hcols⟩ := startup_render rows cols file
  refine ⟨rowsOk_congr (fn.trans a2) (frow.trans a1) hrows, ?_, (fc.trans a3).trans hcols⟩
  intro r hr
  rw [frow, a1] at hr
  exact hrender r hr

end Pico
